import Mathlib

/-!
# orgfetch: paginated aggregation and the clone worker pool

A shallow embedding of `github.go`, `gitlab.go`, `fetcher.go` and of
`RunFetcher` in `main.go`.

Conventions of the embedding.

* A Go `string` is a sequence of bytes.  It is embedded as a `String` read
  byte by byte: every character stands for the byte with that code, so ASCII
  text reads as itself and a UTF-8 sequence is the run of its bytes.
  `len`, `strings.Index`, slicing and `+` are then the list operations.
* What lies outside the repository is a parameter: the HTTP transport
  (`Net`), `json.Unmarshal` (`Codec`), the `git` executable (`Git`) and the
  file system calls of `getOrgList` and `os.Create` (`Files`).
* A Go run-time panic is the result `Res.panic`; a loop that may run for ever
  takes a bound on its iterations and says when the bound was hit.
-/

namespace OrgFetch

/-! ## Strings -/

/-- Go `strings.Index(s, substr)`: offset of the first occurrence, `none`
for -1. -/
def Index : List Char → List Char → Option Nat
  | [], substr => if substr.isPrefixOf [] then some 0 else none
  | c :: cs, substr =>
    if substr.isPrefixOf (c :: cs) then some 0 else (Index cs substr).map (· + 1)

/-- Go slice expression `s[lo:hi]`; `none` is the run-time panic
"slice bounds out of range". -/
def slice (s : List Char) (lo hi : Nat) : Option (List Char) :=
  if lo ≤ hi ∧ hi ≤ s.length then some ((s.take hi).drop lo) else none

/-- Pieces of `s` between occurrences of `sep`, scanning left to right;
`skip` bytes of a separator just matched are still to be passed over. -/
def splitFrom (sep : List Char) : Nat → List Char → List (List Char)
  | _, [] => [[]]
  | k + 1, _ :: cs => splitFrom sep k cs
  | 0, c :: cs =>
    if sep.isPrefixOf (c :: cs) then [] :: splitFrom sep (sep.length - 1) cs
    else
      match splitFrom sep 0 cs with
      | [] => [[c]]
      | p :: ps => (c :: p) :: ps

/-- Wrapper `split` of `github.go`, that is `strings.Split(s, sep)` for a
non-empty `sep` (the program only passes ","). For an empty separator Go
cuts after each UTF-8 sequence; here that case cuts after each byte. -/
def split (s sep : List Char) : List (List Char) :=
  if sep = [] then s.map (fun c => [c]) else splitFrom sep 0 s

/-- The UTF-8 encodings of the code points for which Go `unicode.IsSpace`
holds: tab, LF, VT, FF, CR, space, U+0085, U+00A0, U+1680, U+2000..U+200A,
U+2028, U+2029, U+202F, U+205F, U+3000. -/
def spaceSeqs : List (List Nat) :=
  [[0x09], [0x0A], [0x0B], [0x0C], [0x0D], [0x20],
   [0xC2, 0x85], [0xC2, 0xA0], [0xE1, 0x9A, 0x80],
   [0xE2, 0x80, 0x80], [0xE2, 0x80, 0x81], [0xE2, 0x80, 0x82],
   [0xE2, 0x80, 0x83], [0xE2, 0x80, 0x84], [0xE2, 0x80, 0x85],
   [0xE2, 0x80, 0x86], [0xE2, 0x80, 0x87], [0xE2, 0x80, 0x88],
   [0xE2, 0x80, 0x89], [0xE2, 0x80, 0x8A], [0xE2, 0x80, 0xA8],
   [0xE2, 0x80, 0xA9], [0xE2, 0x80, 0xAF], [0xE2, 0x81, 0x9F],
   [0xE3, 0x80, 0x80]]

/-- Number of bytes of the white-space rune the byte list starts with, 0 when
it starts with none. -/
def spacePrefix (bs : List Nat) : Nat :=
  match spaceSeqs.find? (fun p => p.isPrefixOf bs) with
  | some p => p.length
  | none => 0

/-- Number of bytes of the white-space rune the byte list ends with, 0 when
it ends with none (`bs` is given last byte first). -/
def spaceSuffix (rev : List Nat) : Nat :=
  match spaceSeqs.find? (fun p => p.reverse.isPrefixOf rev) with
  | some p => p.length
  | none => 0

/-- Drop leading white-space runes, at most `n` of them. -/
def trimLeft : Nat → List Char → List Char
  | 0, s => s
  | n + 1, s =>
    match spacePrefix (s.map Char.toNat) with
    | 0 => s
    | k + 1 => trimLeft n (s.drop (k + 1))

/-- Drop trailing white-space runes, at most `n` of them; the string is given
last byte first. -/
def trimRightRev : Nat → List Char → List Char
  | 0, s => s
  | n + 1, s =>
    match spaceSuffix (s.map Char.toNat) with
    | 0 => s
    | k + 1 => trimRightRev n (s.drop (k + 1))

/-- Wrapper `trim` of `github.go`, that is `strings.TrimSpace`: the leading
white space is removed first, then the trailing white space of the rest. -/
def trim (s : List Char) : List Char :=
  let l := trimLeft s.length s
  (trimRightRev l.length l.reverse).reverse

/-- Function `splitAndTrim` of `github.go`. -/
def splitAndTrim (s sep : List Char) : List (List Char) :=
  (split s sep).map trim

/-! ## Link header -/

/-- Type `linkPart` of `github.go`. -/
structure linkPart where
  URL : String
  Rel : String
  deriving DecidableEq, Repr

/-- Body of the loop of `splitLinks` for one entry `s`: the url between the
first `<` and the first `>` (when the `>` comes later), and the text from 5
bytes after the first `rel=` up to the last byte; `none` when the second
slice is out of bounds. -/
def linkEntry (s : List Char) : Option (List Char × List Char) :=
  let url : List Char :=
    match Index s "<".toList with
    | some i =>
      match Index s ">".toList with
      | some j => if j > i then (s.take j).drop (i + 1) else []
      | none => []
    | none => []
  match Index s "rel=".toList with
  | some i => (slice s (i + 5) (s.length - 1)).map (fun rel => (url, rel))
  | none => some (url, [])

/-- The `for` loop of `splitLinks` over the entries, `parts` being the
slice built so far. -/
def splitLinksLoop : List (List Char) → List linkPart → Option (List linkPart)
  | [], parts => some parts
  | s :: rest, parts =>
    match linkEntry s with
    | none => none
    | some (url, rel) =>
      if url ≠ [] ∧ rel ≠ [] then splitLinksLoop rest (parts ++ [⟨⟨url⟩, ⟨rel⟩⟩])
      else splitLinksLoop rest parts

/-- Function `splitLinks` of `github.go`; `none` is a run-time panic. -/
def splitLinks (header : String) : Option (List linkPart) :=
  splitLinksLoop (splitAndTrim header.toList ",".toList) []

/-! ## HTTP transport and JSON decoding (outside the repository) -/

/-- Result of a call: a value, a Go `error` (with its message), or a run-time
panic. -/
inductive Res (α : Type) where
  | ok (a : α)
  | err (e : String)
  | panic
  deriving DecidableEq, Repr

/-- Header fields as written by `Header.Set`, oldest first. -/
abbrev Header := List (String × String)

/-- Go `Header.Set(key, value)`: the entry for `key` is replaced by the single
value. -/
def headerSet (h : Header) (key value : String) : Header :=
  h.filter (fun kv => kv.1 ≠ key) ++ [(key, value)]

/-- Go `Header.Get(key)`: first value of `key`, the empty string when the
field is absent. -/
def headerGet (h : Header) (key : String) : String :=
  match h.find? (fun kv => kv.1 = key) with
  | some kv => kv.2
  | none => ""

/-- Whether a header field named `key` is present. -/
def headerHas (h : Header) (key : String) : Bool :=
  h.any (fun kv => kv.1 = key)

/-- The `*http.Request` the adapters build. -/
structure Request where
  Method : String
  URL : String
  Header : Header
  deriving DecidableEq, Repr

/-- The part of `*http.Response` at hand: status code, header, and what
`ioutil.ReadAll(resp.Body)` returns. -/
structure Response where
  StatusCode : Int
  Header : Header
  Body : Except String String

/-- The network as the adapters see it: the error `http.NewRequest` returns
for a locator it cannot parse, and `client.Do`. -/
structure Net where
  urlError : String → Option String
  Do : Request → Except String Response

/-- Type `Repo` of `github.go`; `Login` is `Owner.Login`, `Size` is in KB. -/
structure Repo where
  Name : String
  Fork : Bool
  Size : Int
  Login : String
  deriving DecidableEq, Repr

/-- Type `Member` of `github.go`. -/
structure Member where
  Login : String
  deriving DecidableEq, Repr

/-- Type `GitLabRepo` of `gitlab.go`; `Username` is `Owner.Username`, `Size`
is in bytes. -/
structure GitLabRepo where
  Name : String
  Fork : Bool
  Size : Int
  Username : String
  deriving DecidableEq, Repr

/-- Type `GitLabMember` of `gitlab.go`. -/
structure GitLabMember where
  Username : String
  deriving DecidableEq, Repr

/-- The calls of `json.Unmarshal(body, &v)` at the four slice types: the
decoded records, or the error. -/
structure Codec where
  repos : String → Except String (List Repo)
  members : String → Except String (List Member)
  gitlabRepos : String → Except String (List GitLabRepo)
  gitlabMembers : String → Except String (List GitLabMember)

/-! ## github.go -/

/-- Type `apiResponse` of `github.go`. -/
structure apiResponse where
  Body : String
  Next : String
  deriving DecidableEq, Repr

/-- The request `apiGet` sends: `http.NewRequest("GET", url, nil)` followed
by the two `req.Header.Set` calls. -/
def apiRequest (token url : String) : Request :=
  { Method := "GET"
    URL := url
    Header := headerSet (headerSet [] "Authorization" ("token " ++ token))
      "Accept" "application/vnd.github.v3+json" }

/-- The loop of `apiGet` over the link parts: `next` becomes the URL of every
part whose `Rel` is `next`, so the last such part wins. -/
def nextOf (parts : List linkPart) : String :=
  parts.foldl (fun next part => if part.Rel = "next" then part.URL else next) ""

/-- Function `apiGet` of `github.go`. -/
def apiGet (net : Net) (token url : String) : Res apiResponse :=
  match net.urlError url with
  | some e => .err e
  | none =>
    match net.Do (apiRequest token url) with
    | .error e => .err e
    | .ok resp =>
      match resp.Body with
      | .error e => .err e
      | .ok body =>
        let link := headerGet resp.Header "Link"
        if link ≠ "" then
          match splitLinks link with
          | none => .panic
          | some parts => .ok { Body := body, Next := nextOf parts }
        else .ok { Body := body, Next := "" }

/-- One call of a paginated fetch: the locators passed to `apiGet`, in
order, and the value returned; `none` when the loop was still running after
the allowed number of iterations. -/
structure Fetched (α : Type) where
  requests : List String
  result : Option (Res (List α))

/-- The loop `for url != "" { ... }` shared, word for word, by `fetchMembers`,
`fetchRepos` and `fetchUserRepos`: `acc` is the slice appended to so far and
the first argument bounds the iterations still allowed. -/
def pageLoop {α : Type} (get : String → Res apiResponse)
    (unmarshal : String → Except String (List α)) :
    Nat → String → List α → Fetched α
  | 0, url, acc =>
    if url = "" then { requests := [], result := some (.ok acc) }
    else { requests := [], result := none }
  | n + 1, url, acc =>
    if url = "" then { requests := [], result := some (.ok acc) }
    else
      match get url with
      | .err e => { requests := [url], result := some (.err e) }
      | .panic => { requests := [url], result := some .panic }
      | .ok resp =>
        match unmarshal resp.Body with
        | .error e => { requests := [url], result := some (.err e) }
        | .ok page =>
          let rest := pageLoop get unmarshal n resp.Next (acc ++ page)
          { requests := url :: rest.requests, result := rest.result }

/-- Function `fetchMembers` of `github.go`, run for at most `fuel` pages. -/
def fetchMembers (net : Net) (codec : Codec) (fuel : Nat) (token org : String) :
    Fetched Member :=
  pageLoop (apiGet net token) codec.members fuel
    ("https://api.github.com/orgs/" ++ org ++ "/members") []

/-- Function `fetchRepos` of `github.go`, run for at most `fuel` pages. -/
def fetchRepos (net : Net) (codec : Codec) (fuel : Nat) (token org : String) :
    Fetched Repo :=
  pageLoop (apiGet net token) codec.repos fuel
    ("https://api.github.com/orgs/" ++ org ++ "/repos?per_page=100") []

/-- Function `fetchUserRepos` of `github.go`, run for at most `fuel` pages. -/
def fetchUserRepos (net : Net) (codec : Codec) (fuel : Nat) (token username : String) :
    Fetched Repo :=
  pageLoop (apiGet net token) codec.repos fuel
    ("https://api.github.com/users/" ++ username ++ "/repos?per_page=100") []

/-! ## gitlab.go -/

/-- The request `gitlabApiGet` sends. -/
def gitlabRequest (token url : String) : Request :=
  { Method := "GET"
    URL := url
    Header := headerSet [] "PRIVATE-TOKEN" token }

/-- Function `gitlabApiGet` of `gitlab.go`. -/
def gitlabApiGet (net : Net) (token url : String) : Except String String :=
  match net.urlError url with
  | some e => .error e
  | none =>
    match net.Do (gitlabRequest token url) with
    | .error e => .error e
    | .ok resp => resp.Body

/-- Function `fetchGitLabMembers` of `gitlab.go`. -/
def fetchGitLabMembers (net : Net) (codec : Codec) (token group : String) :
    Except String (List GitLabMember) :=
  match gitlabApiGet net token ("https://gitlab.com/api/v4/groups/" ++ group ++ "/members") with
  | .error e => .error e
  | .ok resp => codec.gitlabMembers resp

/-- Function `fetchGitLabRepos` of `gitlab.go`. -/
def fetchGitLabRepos (net : Net) (codec : Codec) (token group : String) :
    Except String (List GitLabRepo) :=
  match gitlabApiGet net token
      ("https://gitlab.com/api/v4/groups/" ++ group ++ "/projects?per_page=100") with
  | .error e => .error e
  | .ok resp => codec.gitlabRepos resp

/-- Function `fetchGitLabUserRepos` of `gitlab.go`. -/
def fetchGitLabUserRepos (net : Net) (codec : Codec) (token username : String) :
    Except String (List GitLabRepo) :=
  match gitlabApiGet net token
      ("https://gitlab.com/api/v4/users/" ++ username ++ "/projects?per_page=100") with
  | .error e => .error e
  | .ok resp => codec.gitlabRepos resp

/-! ## fetcher.go -/

/-- The `git` executable: for `git clone url` run in directory `folder`, the
combined output and the error of `cmd.CombinedOutput()`, if any. -/
abbrev Git := String → String → String × Option String

/-- Function `cloneRepo` of `fetcher.go`: `none` is the `nil` error. -/
def cloneRepo (git : Git) (url folder : String) : Option String :=
  match git url folder with
  | (output, some err) => some ("git clone failed: " ++ err ++ "\n" ++ output)
  | (_, none) => none

/-! ## main.go: configuration and `getOrgList` -/

/-- The package-level flag variables of `main.go`. -/
structure Config where
  token : String
  orgname : String
  output : String
  includeForks : Bool
  repoType : String
  member : String
  download : Bool
  urlsOnly : Bool
  usernamesOnly : Bool
  maxSizeMB : Int
  provider : String
  parallel : Int

/-- The file system calls of `main.go`: whether `os.Stat` succeeds on a path
that is not a directory, the lines `bufio.Scanner` reads from it (or the error
of `os.Open` or of the scanner), and the error of `os.Create`, if any. -/
structure Files where
  isFile : String → Bool
  readLines : String → Except String (List String)
  create : String → Option String

/-- Function `getOrgList` of `main.go`. -/
def getOrgList (fs : Files) (orgname : String) : Except String (List String) :=
  if fs.isFile orgname then
    match fs.readLines orgname with
    | .error e => .error e
    | .ok lines => .ok (lines.filter (fun line => line ≠ ""))
  else .ok [orgname]

/-- A file system in which no path names a file and every `os.Create`
succeeds. -/
def noFiles : Files :=
  { isFile := fun _ => false, readLines := fun _ => .error "no such file", create := fun _ => none }

/-- The six adapter operations as `RunFetcher` calls them, each call standing
for the pair (records, error) it returns. -/
structure Fetchers where
  fetchMembers : String → String → Except String (List Member)
  fetchRepos : String → String → Except String (List Repo)
  fetchUserRepos : String → String → Except String (List Repo)
  fetchGitLabMembers : String → String → Except String (List GitLabMember)
  fetchGitLabRepos : String → String → Except String (List GitLabRepo)
  fetchGitLabUserRepos : String → String → Except String (List GitLabRepo)

/-- Where a line is written: the output file `f`, or standard output. -/
inductive Sink where
  | file
  | stdout
  deriving DecidableEq, Repr

/-- The variables of the listing loop of `RunFetcher`: the lines written so
far (one entry per print call, without the newline that ends it) and the three
counters. -/
structure St where
  out : List (Sink × String)
  totalMembers : Nat
  totalRepos : Nat
  totalMemberRepos : Nat
  deriving DecidableEq, Repr

/-- The sink of the listing: `f` is not nil exactly when the `output` flag is
not empty. -/
def sinkOf (cfg : Config) : Sink :=
  if cfg.output ≠ "" then Sink.file else Sink.stdout

/-- The statement `if f != nil { fmt.Fprintf(f, ...) } else { fmt.Printf(...) }`. -/
def St.put (cfg : Config) (st : St) (line : String) : St :=
  { st with out := st.out ++ [(sinkOf cfg, line)] }

/-- The loop over `repos` that prints `<host><owner>/<name>` for each repository
not skipped by `if !includeForks && r.Fork { continue }` and counts it in
`totalRepos`. -/
def orgRepoLoop {ρ : Type} (cfg : Config) (name : ρ → String) (fork : ρ → Bool)
    (host owner : String) (repos : List ρ) (st : St) : St :=
  repos.foldl (fun st r =>
    if !cfg.includeForks && fork r then st
    else { st.put cfg (host ++ owner ++ "/" ++ name r) with totalRepos := st.totalRepos + 1 }) st

/-- The same loop for one member, counting in `totalMemberRepos`. -/
def userRepoLoop {ρ : Type} (cfg : Config) (name : ρ → String) (fork : ρ → Bool)
    (host owner : String) (repos : List ρ) (st : St) : St :=
  repos.foldl (fun st r =>
    if !cfg.includeForks && fork r then st
    else { st.put cfg (host ++ owner ++ "/" ++ name r) with
           totalMemberRepos := st.totalMemberRepos + 1 }) st

/-- The loop `for _, m := range members` of the listing: a member whose fetch
fails gets an error line and the loop goes on with the next member. -/
def memberLoop {ρ : Type} (cfg : Config) (name : ρ → String) (fork : ρ → Bool)
    (host : String) (fetchUser : String → Except String (List ρ))
    (members : List String) (st : St) : St :=
  members.foldl (fun st m =>
    match fetchUser m with
    | .error e => st.put cfg ("Error fetching repos for " ++ m ++ ": " ++ e)
    | .ok repos => userRepoLoop cfg name fork host m repos st) st

/-- The choice of `members`: the `member` flag alone when it is set, else the
logins of the fetched membership (or the error of that fetch). -/
def selectMembers (cfg : Config) (fetched : Unit → Except String (List String)) :
    Except String (List String) :=
  if cfg.member ≠ "" then .ok [cfg.member] else fetched ()

/-- The block that prints one repository in the full listing. -/
def repoBlock (cfg : Config) (org : String) (r : Repo) (st : St) : St :=
  ((((st.put cfg ("Repo: " ++ r.Name)).put cfg
    ("  URL: https://github.com/" ++ org ++ "/" ++ r.Name)).put cfg
    ("  Fork: " ++ (if r.Fork then "true" else "false"))).put cfg
    ("  Size (KB): " ++ toString r.Size)).put cfg ("  Owner: " ++ r.Login)

/-- The loop over `repos` of the full listing. -/
def repoBlocks (cfg : Config) (org : String) (repos : List Repo) (st : St) : St :=
  repos.foldl (fun st r => if !cfg.includeForks && r.Fork then st else repoBlock cfg org r st) st

/-- Body of `for _, org := range orgs` when `provider == "gitlab"`
(lines 331-633); every path ends in `continue`. -/
def listGitLab (cfg : Config) (F : Fetchers) (st : St) (org : String) : St :=
  if cfg.usernamesOnly then
    match F.fetchGitLabMembers cfg.token org with
    | .error e => st.put cfg ("Error fetching members: " ++ e)
    | .ok members =>
      let st1 := members.foldl (fun st m => st.put cfg m.Username) st
      { st1 with totalMembers := st1.totalMembers + members.length }
  else if cfg.urlsOnly then
    if cfg.repoType = "org" then
      match F.fetchGitLabRepos cfg.token org with
      | .error e => st.put cfg ("Error fetching repos: " ++ e)
      | .ok repos =>
        orgRepoLoop cfg GitLabRepo.Name GitLabRepo.Fork "https://gitlab.com/" org repos st
    else if cfg.repoType = "member" then
      match selectMembers cfg (fun _ =>
          (F.fetchGitLabMembers cfg.token org).map (fun l => l.map GitLabMember.Username)) with
      | .error e => st.put cfg ("Error fetching members: " ++ e)
      | .ok members =>
        memberLoop cfg GitLabRepo.Name GitLabRepo.Fork "https://gitlab.com/"
          (F.fetchGitLabUserRepos cfg.token) members st
    else if cfg.repoType = "both" then
      match F.fetchGitLabRepos cfg.token org with
      | .error e => st.put cfg ("Error fetching repos: " ++ e)
      | .ok repos =>
        let st1 := orgRepoLoop cfg GitLabRepo.Name GitLabRepo.Fork "https://gitlab.com/" org repos st
        match selectMembers cfg (fun _ =>
            (F.fetchGitLabMembers cfg.token org).map (fun l => l.map GitLabMember.Username)) with
        | .error e => st1.put cfg ("Error fetching members: " ++ e)
        | .ok members =>
          memberLoop cfg GitLabRepo.Name GitLabRepo.Fork "https://gitlab.com/"
            (F.fetchGitLabUserRepos cfg.token) members st1
    else st
  else st

/-- The members the GitHub branches work on. -/
def githubMembers (cfg : Config) (F : Fetchers) (org : String) : Except String (List String) :=
  selectMembers cfg (fun _ => (F.fetchMembers cfg.token org).map (fun l => l.map Member.Login))

/-- Body of `for _, org := range orgs` for any other provider: the
`usernamesOnly` and `urlsOnly` branches (lines 635-927). -/
def listGitHubShort (cfg : Config) (F : Fetchers) (st : St) (org : String) : Option St :=
  if cfg.usernamesOnly then
    match F.fetchMembers cfg.token org with
    | .error e => some (st.put cfg ("Error fetching members: " ++ e))
    | .ok orgMembers =>
      let st1 := orgMembers.foldl (fun st m => st.put cfg m.Login) st
      some { st1 with totalMembers := st1.totalMembers + orgMembers.length }
  else if cfg.urlsOnly then
    if cfg.repoType = "org" then
      match F.fetchRepos cfg.token org with
      | .error e => some (st.put cfg ("Error fetching repos: " ++ e))
      | .ok repos => some (orgRepoLoop cfg Repo.Name Repo.Fork "https://github.com/" org repos st)
    else if cfg.repoType = "member" then
      match githubMembers cfg F org with
      | .error e => some (st.put cfg ("Error fetching members: " ++ e))
      | .ok members =>
        some (memberLoop cfg Repo.Name Repo.Fork "https://github.com/"
          (F.fetchUserRepos cfg.token) members st)
    else if cfg.repoType = "both" then
      let st1 :=
        match F.fetchRepos cfg.token org with
        | .error e => st.put cfg ("Error fetching org repos: " ++ e)
        | .ok repos => orgRepoLoop cfg Repo.Name Repo.Fork "https://github.com/" org repos st
      match githubMembers cfg F org with
      | .error e => some (st1.put cfg ("Error fetching members: " ++ e))
      | .ok members =>
        some (memberLoop cfg Repo.Name Repo.Fork "https://github.com/"
          (F.fetchUserRepos cfg.token) members st1)
    else none
  else none

/-- The full listing of the GitHub branch (lines 929-1271), reached when
neither short mode ended the iteration. -/
def listGitHubFull (cfg : Config) (F : Fetchers) (st : St) (org : String) : St :=
  if cfg.repoType = "org" then
    match F.fetchRepos cfg.token org with
    | .error e => st.put cfg ("Error fetching repos: " ++ e)
    | .ok repos =>
      let st1 := repoBlocks cfg org repos (st.put cfg ("Organization: " ++ org))
      match F.fetchMembers cfg.token org with
      | .error e => st1.put cfg ("Error fetching members: " ++ e)
      | .ok members =>
        let st2 := members.foldl (fun st m => st.put cfg ("Member: " ++ m.Login)) st1
        { st2 with totalMembers := st2.totalMembers + members.length }
  else if cfg.repoType = "member" then
    match githubMembers cfg F org with
    | .error e => st.put cfg ("Error fetching members: " ++ e)
    | .ok members =>
      let st1 := memberLoop cfg Repo.Name Repo.Fork "" (F.fetchUserRepos cfg.token) members st
      members.foldl (fun st m => st.put cfg ("Member: " ++ m)) st1
  else if cfg.repoType = "both" then
    let st1 :=
      match F.fetchRepos cfg.token org with
      | .error e => st.put cfg ("Error fetching org repos: " ++ e)
      | .ok repos => repoBlocks cfg org repos (st.put cfg ("Organization: " ++ org))
    match githubMembers cfg F org with
    | .error e => st1.put cfg ("Error fetching members: " ++ e)
    | .ok members =>
      memberLoop cfg Repo.Name Repo.Fork "" (F.fetchUserRepos cfg.token) members st1
  else st

/-- Body of the listing loop `for _, org := range orgs` (lines 329-1273). -/
def listOrg (cfg : Config) (F : Fetchers) (st : St) (org : String) : St :=
  if cfg.provider = "gitlab" then listGitLab cfg F st org
  else
    match listGitHubShort cfg F st org with
    | some st1 => st1
    | none => listGitHubFull cfg F st org

/-- The totals printed to the console after the listing (lines 1277-1295);
`Yellow`, `Green` and `Reset` are the colour constants. -/
def totals (cfg : Config) (st : St) : List (Sink × String) :=
  if cfg.usernamesOnly then
    [(Sink.stdout, "\x1b[33m" ++ "Total members: " ++ "\x1b[32m" ++ toString st.totalMembers ++ "\x1b[0m")]
  else if cfg.urlsOnly then
    (if cfg.repoType = "org" ∨ cfg.repoType = "both" then
      [(Sink.stdout, "\x1b[33m" ++ "Total repositories: " ++ "\x1b[32m" ++
        toString st.totalRepos ++ "\x1b[0m")] else []) ++
    (if cfg.repoType = "member" ∨ cfg.repoType = "both" then
      [(Sink.stdout, "\x1b[33m" ++ "Total member-owned repositories: " ++ "\x1b[32m" ++
        toString st.totalMemberRepos ++ "\x1b[0m")] else [])
  else []

/-! ## main.go: the download phase -/

/-- The variables of the collection loop of the download phase: the lines
printed and the slice `repoURLs`. -/
structure Dl where
  out : List (Sink × String)
  repoURLs : List String
  deriving DecidableEq, Repr

/-- A `fmt.Printf` of the download phase (always to standard output). -/
def Dl.print (d : Dl) (line : String) : Dl :=
  { d with out := d.out ++ [(Sink.stdout, line)] }

/-- The loop over `repos` that appends `<host><owner>/<name>` to `repoURLs`
for each repository not skipped by `if !includeForks && r.Fork { continue }`. -/
def appendURLs {ρ : Type} (cfg : Config) (name : ρ → String) (fork : ρ → Bool)
    (host owner : String) (repos : List ρ) (d : Dl) : Dl :=
  repos.foldl (fun d r =>
    if !cfg.includeForks && fork r then d
    else { d with repoURLs := d.repoURLs ++ [host ++ owner ++ "/" ++ name r] }) d

/-- The loop `for _, m := range members` of the download phase. -/
def collectMembers {ρ : Type} (cfg : Config) (name : ρ → String) (fork : ρ → Bool)
    (host : String) (fetchUser : String → Except String (List ρ))
    (members : List String) (d : Dl) : Dl :=
  members.foldl (fun d m =>
    match fetchUser m with
    | .error e => d.print ("Error fetching repos for " ++ m ++ ": " ++ e)
    | .ok repos => appendURLs cfg name fork host m repos d) d

/-- Body of the loop `for _, org := range orgs` that collects the clone
targets (lines 1309-1481). -/
def collectOrg (cfg : Config) (F : Fetchers) (d : Dl) (org : String) : Dl :=
  if cfg.provider = "github" then
    match F.fetchRepos cfg.token org with
    | .error e => d.print ("Error fetching repos: " ++ e)
    | .ok repos =>
      let d1 := appendURLs cfg Repo.Name Repo.Fork "https://github.com/" org repos d
      if cfg.repoType = "member" ∨ cfg.repoType = "both" then
        match githubMembers cfg F org with
        | .error e => d1.print ("Error fetching members: " ++ e)
        | .ok members =>
          collectMembers cfg Repo.Name Repo.Fork "https://github.com/"
            (F.fetchUserRepos cfg.token) members d1
      else d1
  else if cfg.provider = "gitlab" then
    match F.fetchGitLabRepos cfg.token org with
    | .error e => d.print ("Error fetching repos: " ++ e)
    | .ok repos =>
      let d1 := appendURLs cfg GitLabRepo.Name GitLabRepo.Fork "https://gitlab.com/" org repos d
      if cfg.repoType = "member" ∨ cfg.repoType = "both" then
        match selectMembers cfg (fun _ =>
            (F.fetchGitLabMembers cfg.token org).map (fun l => l.map GitLabMember.Username)) with
        | .error e => d1.print ("Error fetching members: " ++ e)
        | .ok members =>
          collectMembers cfg GitLabRepo.Name GitLabRepo.Fork "https://gitlab.com/"
            (F.fetchGitLabUserRepos cfg.token) members d1
      else d1
  else d

/-- What `RunFetcher` has done when it reaches the worker pool or returns
before it: the lines written, and the slice `repoURLs` handed to the pool
(`none` when the download phase is not entered). -/
structure Result where
  out : List (Sink × String)
  targets : Option (List String)
  deriving DecidableEq, Repr

/-- Function `RunFetcher` of `main.go` up to the worker pool (lines 287-1481),
for a run in which every adapter call returns. The directory made by
`os.MkdirAll` is not part of the result. -/
def RunFetcher (cfg : Config) (fs : Files) (F : Fetchers) : Result :=
  match getOrgList fs cfg.orgname with
  | .error e => { out := [(Sink.stdout, "Error reading orgname(s): " ++ e)], targets := none }
  | .ok orgs =>
    match (if cfg.output ≠ "" then fs.create cfg.output else none) with
    | some e => { out := [(Sink.stdout, "Error creating output file: " ++ e)], targets := none }
    | none =>
      let st := orgs.foldl (listOrg cfg F)
        { out := [], totalMembers := 0, totalRepos := 0, totalMemberRepos := 0 }
      let out := st.out ++ totals cfg st
      if cfg.download then
        let d := orgs.foldl (collectOrg cfg F) { out := out, repoURLs := [] }
        { out := d.out, targets := some d.repoURLs }
      else { out := out, targets := none }

/-! ## main.go: the worker pool

The pool (lines 1485-1531) is a transition system. A step is one action of
the main goroutine or of one worker; a run is any sequence of steps, each
taken by a goroutine that is not blocked. -/

/-- Where a worker goroutine stands: at the receive of `for j := range jobs`,
about to call `cloneRepo` on the job it holds, about to send the line it
built on `results`, or past the end of its loop. -/
inductive Worker where
  | recv
  | clone (url : String)
  | send (line : String)
  | exited
  deriving DecidableEq, Repr

/-- Where the main goroutine stands: at the test of the loop that starts the
workers, with `w` started; in the loop that sends the jobs, `rest` still to
send (at `close(jobs)` when `rest` is empty); at the test of the loop that
reads the results, with `i` read; or returned. -/
inductive MainPC where
  | spawning (w : Nat)
  | sending (rest : List String)
  | draining (i : Nat)
  | done
  deriving DecidableEq, Repr

/-- State of the pool: the two channel buffers, whether `jobs` is closed,
the workers started so far, and the lines printed by the drain loop. -/
structure Pool where
  pc : MainPC
  jobs : List String
  jobsClosed : Bool
  results : List String
  workers : List Worker
  printed : List String
  deriving DecidableEq, Repr

/-- What the pool is run with: the `git` executable, the `parallel` flag and
the slice `repoURLs`. -/
structure PoolCfg where
  git : Git
  parallel : Int
  repoURLs : List String

/-- The line a worker builds for the job `url` (lines 1501-1511); the clone
runs in `mainFolder`, that is "downloaded_repos". -/
def outcome (git : Git) (url : String) : String :=
  match cloneRepo git url "downloaded_repos" with
  | some err => "Failed: " ++ url ++ " (" ++ err ++ ")"
  | none => "Cloned: " ++ url

/-- A goroutine of the pool: the main one, or the worker started `k`-th. -/
inductive Actor where
  | main
  | worker (k : Nat)
  deriving DecidableEq, Repr

/-- State after `make(chan job, len(repoURLs))` and
`make(chan string, len(repoURLs))`. -/
def Pool.init : Pool :=
  { pc := .spawning 0, jobs := [], jobsClosed := false, results := [], workers := [], printed := [] }

/-- One step of the main goroutine; `none` when it is blocked or has
returned. Both channels have capacity `len(repoURLs)`. -/
def stepMain (P : PoolCfg) (s : Pool) : Option Pool :=
  match s.pc with
  | .spawning w =>
    if (w : Int) < P.parallel then
      some { s with pc := .spawning (w + 1), workers := s.workers ++ [Worker.recv] }
    else some { s with pc := .sending P.repoURLs }
  | .sending (url :: rest) =>
    if s.jobs.length < P.repoURLs.length then
      some { s with pc := .sending rest, jobs := s.jobs ++ [url] }
    else none
  | .sending [] => some { s with pc := .draining 0, jobsClosed := true }
  | .draining i =>
    if i < P.repoURLs.length then
      match s.results with
      | line :: rest =>
        some { s with pc := .draining (i + 1), results := rest, printed := s.printed ++ [line] }
      | [] => none
    else some { s with pc := .done }
  | .done => none

/-- One step of worker `k`; `none` when it is blocked, has left its loop or
was never started. -/
def stepWorker (P : PoolCfg) (s : Pool) (k : Nat) : Option Pool :=
  match s.workers[k]? with
  | none => none
  | some .recv =>
    match s.jobs with
    | url :: rest => some { s with jobs := rest, workers := s.workers.set k (.clone url) }
    | [] => if s.jobsClosed then some { s with workers := s.workers.set k .exited } else none
  | some (.clone url) => some { s with workers := s.workers.set k (.send (outcome P.git url)) }
  | some (.send line) =>
    if s.results.length < P.repoURLs.length then
      some { s with results := s.results ++ [line], workers := s.workers.set k .recv }
    else none
  | some .exited => none

/-- One step of the pool by the chosen goroutine. Once the main goroutine
has returned from `RunFetcher` the process ends and nothing runs any more. -/
def step (P : PoolCfg) (s : Pool) (a : Actor) : Option Pool :=
  if s.pc = .done then none
  else
    match a with
    | .main => stepMain P s
    | .worker k => stepWorker P s k

/-- The state reached by letting the goroutines of `sched` step in turn;
`none` when one of them could not step at its turn. -/
def exec (P : PoolCfg) : Pool → List Actor → Option Pool
  | s, [] => some s
  | s, a :: rest =>
    match step P s a with
    | none => none
    | some s1 => exec P s1 rest

/-- The pool `RunFetcher` runs once the targets are collected: the `parallel`
flag and the collected `repoURLs`; `none` when the download phase is not
entered. -/
def poolOf (cfg : Config) (git : Git) (r : Result) : Option PoolCfg :=
  r.targets.map (fun urls => { git := git, parallel := cfg.parallel, repoURLs := urls })

/-! ## Page sources -/

/-- The page source answers `url` and each following `Next` locator with
`pages`, one after the other, each decodable into its records, and it is the
last of them that has no `Next` locator. -/
def servesPages {α : Type} [DecidableEq α] (get : String → Res apiResponse)
    (unmarshal : String → Except String (List α)) : String → List (List α) → Bool
  | url, [] => url = ""
  | url, page :: rest =>
    url ≠ "" &&
      match get url with
      | .ok resp =>
        (match unmarshal resp.Body with
          | .ok items => decide (items = page)
          | .error _ => false) &&
        servesPages get unmarshal resp.Next rest
      | _ => false

/-! ## Worker pool: accounting -/

/-- The jobs the main goroutine has not sent yet. -/
def unsent (P : PoolCfg) : MainPC → List String
  | .spawning _ => P.repoURLs
  | .sending rest => rest
  | .draining _ => []
  | .done => []

/-- The line a worker will still send for the job it holds, if it holds one. -/
def Worker.owed (git : Git) : Worker → List String
  | .recv => []
  | .clone url => [outcome git url]
  | .send line => [line]
  | .exited => []

/-- Every line of the pool, wherever it stands: printed, buffered in `results`,
held by a worker, or still to come from a job that is buffered or unsent. -/
def tally (P : PoolCfg) (s : Pool) : Multiset String :=
  (s.printed : Multiset String) + (s.results : Multiset String) +
    ((s.workers.flatMap (Worker.owed P.git) : List String) : Multiset String) +
    ((s.jobs.map (outcome P.git) : List String) : Multiset String) +
    (((unsent P s.pc).map (outcome P.git) : List String) : Multiset String)

/-- Steps a worker can still take without receiving a further job. -/
def Worker.weight : Worker → Nat
  | .recv => 1
  | .clone _ => 3
  | .send _ => 2
  | .exited => 0

/-- Steps the main goroutine can still take, twice counting a worker it has
yet to start (the start and the exit of that worker). -/
def mainWeight (P : PoolCfg) : MainPC → Nat
  | .spawning w => 2 * (P.parallel.toNat - w) + 1 + (P.repoURLs.length + 1) + (P.repoURLs.length + 1)
  | .sending rest => rest.length + 1 + (P.repoURLs.length + 1)
  | .draining i => (P.repoURLs.length - i) + 1
  | .done => 0

/-- A bound on the number of steps the pool can still take. -/
def stepsLeft (P : PoolCfg) (s : Pool) : Nat :=
  mainWeight P s.pc + 3 * ((unsent P s.pc).length + s.jobs.length) +
    (s.workers.map Worker.weight).sum

/-- What holds of the main goroutine at each point of its code. -/
def mainInv (P : PoolCfg) (s : Pool) : Prop :=
  match s.pc with
  | .spawning w =>
    s.workers.length = w ∧ w ≤ P.parallel.toNat ∧ s.jobsClosed = false ∧ s.printed = []
  | .sending _ =>
    s.workers.length = P.parallel.toNat ∧ s.jobsClosed = false ∧ s.printed = []
  | .draining i => s.workers.length = P.parallel.toNat ∧ s.jobsClosed = true ∧ i = s.printed.length
  | .done => P.repoURLs.length ≤ s.printed.length

/-- Invariant of the pool: no line is lost or made twice, the main goroutine
is where its variables say, and a worker has left its loop only once `jobs`
was closed and empty. -/
structure PoolInv (P : PoolCfg) (s : Pool) : Prop where
  tally_eq : tally P s = ((P.repoURLs.map (outcome P.git) : List String) : Multiset String)
  main_ok : mainInv P s
  exited_ok : Worker.exited ∈ s.workers → s.jobsClosed = true ∧ s.jobs = []

/-! ## Transports derived from a transport -/

/-- The transport `net` with every status code replaced by its image under
`g`; headers and bodies are untouched. -/
def withStatus (g : Int → Int) (net : Net) : Net :=
  { urlError := net.urlError
    Do := fun req =>
      match net.Do req with
      | .error e => .error e
      | .ok resp => .ok { resp with StatusCode := g resp.StatusCode } }

/-! ## One iteration of the pagination loop -/

/-- The iteration of the pagination loop at `url` when it goes on to a further
test of the loop condition: the next locator and the page appended; `none`
when the loop is not entered or the iteration returns. -/
def turn {α : Type} (get : String → Res apiResponse)
    (unmarshal : String → Except String (List α)) (url : String) : Option (String × List α) :=
  if url = "" then none
  else
    match get url with
    | .ok resp =>
      match unmarshal resp.Body with
      | .ok page => some (resp.Next, page)
      | .error _ => none
    | _ => none

/-! ## Fetched data with other sizes -/

/-- The adapter results of `F` with the size of every fetched repository
replaced by its image under `g`; names, fork flags and owners are untouched. -/
def resized (g : Int → Int) (F : Fetchers) : Fetchers :=
  { fetchMembers := F.fetchMembers
    fetchRepos := fun token org =>
      (F.fetchRepos token org).map (fun l => l.map (fun r => { r with Size := g r.Size }))
    fetchUserRepos := fun token user =>
      (F.fetchUserRepos token user).map (fun l => l.map (fun r => { r with Size := g r.Size }))
    fetchGitLabMembers := F.fetchGitLabMembers
    fetchGitLabRepos := fun token group =>
      (F.fetchGitLabRepos token group).map (fun l => l.map (fun r => { r with Size := g r.Size }))
    fetchGitLabUserRepos := fun token user =>
      (F.fetchGitLabUserRepos token user).map
        (fun l => l.map (fun r => { r with Size := g r.Size })) }

/-! ## gitlab.go with the requests recorded -/

/-- Function `gitlabApiGet` of `gitlab.go` together with the locators it
passes to `client.Do`: none when `http.NewRequest` fails, else the one
locator. -/
def gitlabApiGetRun (net : Net) (token url : String) : List String × Except String String :=
  match net.urlError url with
  | some e => ([], .error e)
  | none =>
    match net.Do (gitlabRequest token url) with
    | .error e => ([url], .error e)
    | .ok resp => ([url], resp.Body)

/-- Function `fetchGitLabMembers` of `gitlab.go` with the locators requested. -/
def fetchGitLabMembersRun (net : Net) (codec : Codec) (token group : String) :
    Fetched GitLabMember :=
  match gitlabApiGetRun net token ("https://gitlab.com/api/v4/groups/" ++ group ++ "/members") with
  | (reqs, .error e) => { requests := reqs, result := some (.err e) }
  | (reqs, .ok resp) =>
    match codec.gitlabMembers resp with
    | .error e => { requests := reqs, result := some (.err e) }
    | .ok members => { requests := reqs, result := some (.ok members) }

/-- Function `fetchGitLabRepos` of `gitlab.go` with the locators requested. -/
def fetchGitLabReposRun (net : Net) (codec : Codec) (token group : String) :
    Fetched GitLabRepo :=
  match gitlabApiGetRun net token
      ("https://gitlab.com/api/v4/groups/" ++ group ++ "/projects?per_page=100") with
  | (reqs, .error e) => { requests := reqs, result := some (.err e) }
  | (reqs, .ok resp) =>
    match codec.gitlabRepos resp with
    | .error e => { requests := reqs, result := some (.err e) }
    | .ok repos => { requests := reqs, result := some (.ok repos) }

/-- Function `fetchGitLabUserRepos` of `gitlab.go` with the locators
requested. -/
def fetchGitLabUserReposRun (net : Net) (codec : Codec) (token username : String) :
    Fetched GitLabRepo :=
  match gitlabApiGetRun net token
      ("https://gitlab.com/api/v4/users/" ++ username ++ "/projects?per_page=100") with
  | (reqs, .error e) => { requests := reqs, result := some (.err e) }
  | (reqs, .ok resp) =>
    match codec.gitlabRepos resp with
    | .error e => { requests := reqs, result := some (.err e) }
    | .ok repos => { requests := reqs, result := some (.ok repos) }

/-- A returned pair (records, error) as a result. -/
def resOf {α : Type} : Except String α → Res α
  | .ok a => .ok a
  | .error e => .err e

/-! ## Well-formed Link headers -/

/-- An entry `<U>; rel="R"` of a Link header, with the number of spaces
written before and after it. -/
structure LinkItem where
  lead : Nat
  U : String
  R : String
  trail : Nat
  deriving DecidableEq, Repr

/-- The bytes of `<U>; rel="R"`. -/
def LinkItem.core (e : LinkItem) : List Char :=
  "<".toList ++ (e.U.toList ++ (">; rel=\"".toList ++ (e.R.toList ++ "\"".toList)))

/-- The bytes of the entry as written in the header, spaces included. -/
def LinkItem.text (e : LinkItem) : List Char :=
  List.replicate e.lead ' ' ++ (e.core ++ List.replicate e.trail ' ')

/-- The entry is well formed: `U` is not empty and contains none of `,`, `<`,
`>` nor the substring `rel=`; `R` is not empty and contains neither `"` nor
`,`. -/
def LinkItem.wellFormed (e : LinkItem) : Prop :=
  e.U ≠ "" ∧ (∀ c ∈ e.U.toList, c ∉ ",<>".toList) ∧ ¬ ("rel=".toList <:+: e.U.toList) ∧
  e.R ≠ "" ∧ (∀ c ∈ e.R.toList, c ∉ "\",".toList)

/-- The bytes of the header: the entries separated by commas. -/
def headerChars : List LinkItem → List Char
  | [] => []
  | e :: [] => e.text
  | e :: e1 :: es => e.text ++ (",".toList ++ headerChars (e1 :: es))

/-- The Link header made of the entries `es`. -/
def headerOf (es : List LinkItem) : String :=
  ⟨headerChars es⟩

/-! ## Concrete inputs -/

/-- Organization "acme": three repositories that are not forks, two forks. -/
def acmeRepos : List Repo :=
  [⟨"api", false, 10, "acme"⟩, ⟨"fork1", true, 20, "acme"⟩, ⟨"web", false, 30, "acme"⟩,
   ⟨"fork2", true, 40, "acme"⟩, ⟨"docs", false, 50, "acme"⟩]

/-- Adapter results on GitHub: organization "acme" with members bob and eve,
one fork among the repositories of bob; organization "beta" with one
repository and a member list that cannot be fetched; nothing else exists. -/
def acmeFetchers : Fetchers :=
  { fetchMembers := fun _ org =>
      if org = "acme" then .ok [⟨"bob"⟩, ⟨"eve"⟩] else .error "404"
    fetchRepos := fun _ org =>
      if org = "acme" then .ok acmeRepos
      else if org = "beta" then .ok [⟨"core", false, 7, "beta"⟩]
      else .error "404"
    fetchUserRepos := fun _ user =>
      if user = "bob" then .ok [⟨"dot", false, 1, "bob"⟩, ⟨"vim", true, 2, "bob"⟩]
      else if user = "eve" then .ok [⟨"lab", false, 3, "eve"⟩]
      else .error "404"
    fetchGitLabMembers := fun _ _ => .error "404"
    fetchGitLabRepos := fun _ _ => .error "404"
    fetchGitLabUserRepos := fun _ _ => .error "404" }

/-- Flags `--orgname acme --download --urls-only` with the defaults. -/
def acmeCfg : Config :=
  { token := "t", orgname := "acme", output := "", includeForks := false, repoType := "org",
    member := "", download := true, urlsOnly := true, usernamesOnly := false,
    maxSizeMB := 250, provider := "github", parallel := 4 }

/-- A decoder standing for `json.Unmarshal`: the bodies "p1" and "p2" are
pages of two records, "[]" is the empty array, anything else is malformed. -/
def pageCodec : Codec :=
  { repos := fun body =>
      if body = "p1" then .ok [⟨"api", false, 10, "acme"⟩, ⟨"web", false, 30, "acme"⟩]
      else if body = "p2" then .ok [⟨"docs", false, 50, "acme"⟩, ⟨"old", true, 5, "acme"⟩]
      else if body = "[]" then .ok []
      else .error "invalid character"
    members := fun body =>
      if body = "p1" then .ok [⟨"bob"⟩, ⟨"eve"⟩]
      else if body = "p2" then .ok [⟨"kim"⟩, ⟨"lee"⟩]
      else if body = "[]" then .ok []
      else .error "invalid character"
    gitlabRepos := fun body => if body = "[]" then .ok [] else .error "invalid character"
    gitlabMembers := fun body => if body = "[]" then .ok [] else .error "invalid character" }

/-- A server with two pages behind every first locator: the first response
carries a Link header with `rel="next"` and `rel="last"`, the second one with
`rel="prev"` and `rel="first"`; any other locator is an empty array. -/
def twoPageNet : Net :=
  { urlError := fun _ => none
    Do := fun req =>
      if req.URL = "https://api.github.com/orgs/acme/repos?per_page=100" ∨
          req.URL = "https://api.github.com/orgs/acme/members" ∨
          req.URL = "https://api.github.com/users/bob/repos?per_page=100" then
        .ok { StatusCode := 200
              Header := [("Link", "<https://api.github.com/page2>; rel=\"next\", " ++
                "<https://api.github.com/page2>; rel=\"last\"")]
              Body := .ok "p1" }
      else if req.URL = "https://api.github.com/page2" then
        .ok { StatusCode := 200
              Header := [("Link", "<https://api.github.com/page1>; rel=\"prev\", " ++
                "<https://api.github.com/page1>; rel=\"first\"")]
              Body := .ok "p2" }
      else .ok { StatusCode := 200, Header := [], Body := .ok "[]" } }

/-- A `git` that fails on the third target only. -/
def demoGit : Git := fun url _ =>
  if url = "https://github.com/acme/c" then ("fatal: repository not found", some "exit status 128")
  else ("", none)

/-- Two workers and five targets, the third of which fails to clone. -/
def demoPool : PoolCfg :=
  { git := demoGit
    parallel := 2
    repoURLs := ["https://github.com/acme/a", "https://github.com/acme/b",
      "https://github.com/acme/c", "https://github.com/acme/d", "https://github.com/acme/e"] }

/-- One interleaving of the main goroutine and the two workers, in which
results arrive out of submission order. -/
def demoSched : List Actor :=
  [.main, .main, .main, .main, .main, .main, .main, .main, .main,
   .worker 0, .worker 1, .worker 1, .worker 1, .worker 0, .worker 0, .main, .main,
   .worker 0, .worker 1, .worker 0, .worker 1, .worker 1, .worker 0,
   .worker 1, .worker 1, .worker 1, .main, .main, .main, .main]

/-- The state `demoSched` ends in. -/
def demoDone : Pool :=
  { pc := .done
    jobs := []
    jobsClosed := true
    results := []
    workers := [.recv, .recv]
    printed := ["Cloned: https://github.com/acme/b", "Cloned: https://github.com/acme/a",
      "Cloned: https://github.com/acme/d",
      "Failed: https://github.com/acme/c (git clone failed: exit status 128\nfatal: repository not found)",
      "Cloned: https://github.com/acme/e"] }

/-- The repositories of the members of "acme". -/
def acmeUserRepos (m : String) : List Repo :=
  if m = "bob" then [⟨"dot", false, 1, "bob"⟩, ⟨"vim", true, 2, "bob"⟩]
  else if m = "eve" then [⟨"lab", false, 3, "eve"⟩]
  else []

/-- A directory in which "orgs.txt" lists three organizations, with an
empty line among them. -/
def listFiles : Files :=
  { isFile := fun path => path = "orgs.txt"
    readLines := fun path =>
      if path = "orgs.txt" then .ok ["acme", "", "ghost", "beta"] else .error "no such file"
    create := fun _ => none }

/-- Adapter results when the organization-owned repository list cannot be
fetched (on either provider) while the member list and every member's
repository list can. -/
def orgDownFetchers : Fetchers :=
  { fetchMembers := fun _ _ => .ok [⟨"bob"⟩, ⟨"eve"⟩]
    fetchRepos := fun _ _ => .error "403"
    fetchUserRepos := fun _ user => .ok (acmeUserRepos user)
    fetchGitLabMembers := fun _ _ => .ok [⟨"bob"⟩, ⟨"eve"⟩]
    fetchGitLabRepos := fun _ _ => .error "403"
    fetchGitLabUserRepos := fun _ user =>
      if user = "bob" then .ok [⟨"dot", false, 1, "bob"⟩] else .ok [] }

/-- A server that answers every request with status 404 and the body `[]`. -/
def notFoundNet : Net :=
  { urlError := fun _ => none
    Do := fun _ => .ok { StatusCode := 404, Header := [], Body := .ok "[]" } }

/-- A server whose every response names the first page of the repositories
of "acme" as the next page. -/
def loopNet : Net :=
  { urlError := fun _ => none
    Do := fun _ =>
      .ok { StatusCode := 200
            Header := [("Link", "<https://api.github.com/orgs/acme/repos?per_page=100>; rel=\"next\"")]
            Body := .ok "[]" } }

/-- A server whose every response carries the Link header `rel=`. -/
def brokenLinkNet : Net :=
  { urlError := fun _ => none
    Do := fun _ => .ok { StatusCode := 200, Header := [("Link", "rel=")], Body := .ok "[]" } }

/-- The flag `--parallel 0` with one target. -/
def zeroPool : PoolCfg :=
  { git := demoGit, parallel := 0, repoURLs := ["https://github.com/acme/a"] }

/-- The state of `zeroPool` once the main goroutine has left the loop that
starts the workers, sent the one job and closed `jobs`. -/
def zeroStuck : Pool :=
  { pc := .draining 0
    jobs := ["https://github.com/acme/a"]
    jobsClosed := true
    results := []
    workers := []
    printed := [] }

/-- Adapter results for an organization whose one repository has a size of
10^9 KB. -/
def hugeFetchers : Fetchers :=
  { fetchMembers := fun _ _ => .ok []
    fetchRepos := fun _ _ => .ok [⟨"huge", false, 1000000000, "acme"⟩]
    fetchUserRepos := fun _ _ => .ok []
    fetchGitLabMembers := fun _ _ => .ok []
    fetchGitLabRepos := fun _ _ => .ok []
    fetchGitLabUserRepos := fun _ _ => .ok [] }

/-- A decoder standing for `json.Unmarshal` on GitLab bodies: "g1" is a page
of two projects, "m1" a page of two members. -/
def gitlabCodec : Codec :=
  { repos := fun _ => .error "invalid character"
    members := fun _ => .error "invalid character"
    gitlabRepos := fun body =>
      if body = "g1" then .ok [⟨"api", false, 10, "acme"⟩, ⟨"web", false, 30, "acme"⟩]
      else if body = "g2" then .ok [⟨"docs", false, 50, "acme"⟩]
      else .error "invalid character"
    gitlabMembers := fun body =>
      if body = "m1" then .ok [⟨"bob"⟩, ⟨"eve"⟩]
      else if body = "m2" then .ok [⟨"kim"⟩]
      else .error "invalid character" }

/-- A GitLab server that holds three projects and three members and serves
them two to a page: the first page of each list says in its headers that a
second page exists, which is served at the locator ending in `page=2`. -/
def gitlabTwoPageNet : Net :=
  { urlError := fun _ => none
    Do := fun req =>
      if req.URL = "https://gitlab.com/api/v4/groups/acme/projects?per_page=100" ∨
          req.URL = "https://gitlab.com/api/v4/users/acme/projects?per_page=100" then
        .ok { StatusCode := 200
              Header := [("X-Next-Page", "2"), ("X-Total", "3"),
                ("Link", "<https://gitlab.com/api/v4/groups/acme/projects?page=2>; rel=\"next\"")]
              Body := .ok "g1" }
      else if req.URL = "https://gitlab.com/api/v4/groups/acme/members" then
        .ok { StatusCode := 200
              Header := [("X-Next-Page", "2"), ("X-Total", "3"),
                ("Link", "<https://gitlab.com/api/v4/groups/acme/members?page=2>; rel=\"next\"")]
              Body := .ok "m1" }
      else if req.URL = "https://gitlab.com/api/v4/groups/acme/projects?page=2" then
        .ok { StatusCode := 200, Header := [], Body := .ok "g2" }
      else if req.URL = "https://gitlab.com/api/v4/groups/acme/members?page=2" then
        .ok { StatusCode := 200, Header := [], Body := .ok "m2" }
      else .ok { StatusCode := 404, Header := [], Body := .ok "not found" } }

/-- A Link header as GitHub writes it, with four entries. -/
def githubLinks : List LinkItem :=
  [⟨0, "https://api.github.com/r?page=1", "prev", 0⟩,
   ⟨1, "https://api.github.com/r?page=3", "next", 0⟩,
   ⟨1, "https://api.github.com/r?page=9", "last", 0⟩,
   ⟨1, "https://api.github.com/r?page=1", "first", 0⟩]

/-- A server that answers every request with the header of `githubLinks`. -/
def githubLinksNet : Net :=
  { urlError := fun _ => none
    Do := fun _ =>
      .ok { StatusCode := 200
            Header := [("Link",
              "<https://api.github.com/r?page=1>; rel=\"prev\"," ++
              " <https://api.github.com/r?page=3>; rel=\"next\"," ++
              " <https://api.github.com/r?page=9>; rel=\"last\"," ++
              " <https://api.github.com/r?page=1>; rel=\"first\"")]
            Body := .ok "p1" } }

/-- A server with two pages that name each other as next: the second page
leads back to the first locator of the repositories of "acme". -/
def cycleNet : Net :=
  { urlError := fun _ => none
    Do := fun req =>
      if req.URL = "https://api.github.com/page2" then
        .ok { StatusCode := 200
              Header := [("Link",
                "<https://api.github.com/orgs/acme/repos?per_page=100>; rel=\"next\"")]
              Body := .ok "p2" }
      else
        .ok { StatusCode := 200
              Header := [("Link", "<https://api.github.com/page2>; rel=\"next\"")]
              Body := .ok "p1" } }

/-! ## Lemmas on the loops of `RunFetcher` -/

theorem orgRepoLoop_eq {ρ : Type} (cfg : Config) (name : ρ → String) (fork : ρ → Bool)
    (host owner : String) (repos : List ρ) (st : St) :
    orgRepoLoop cfg name fork host owner repos st =
      { out := st.out ++ (repos.filter (fun r => cfg.includeForks || !fork r)).map
          (fun r => (sinkOf cfg, host ++ owner ++ "/" ++ name r))
        totalMembers := st.totalMembers
        totalRepos := st.totalRepos + (repos.filter (fun r => cfg.includeForks || !fork r)).length
        totalMemberRepos := st.totalMemberRepos } := by
  unfold orgRepoLoop
  induction repos generalizing st with
  | nil => simp
  | cons r rs ih =>
    rw [List.foldl_cons, ih]
    cases hf : fork r <;> cases hi : cfg.includeForks <;>
      simp [St.put, hf, hi, Nat.add_assoc, Nat.add_comm 1]

theorem appendURLs_eq {ρ : Type} (cfg : Config) (name : ρ → String) (fork : ρ → Bool)
    (host owner : String) (repos : List ρ) (d : Dl) :
    appendURLs cfg name fork host owner repos d =
      { out := d.out
        repoURLs := d.repoURLs ++ (repos.filter (fun r => cfg.includeForks || !fork r)).map
          (fun r => host ++ owner ++ "/" ++ name r) } := by
  unfold appendURLs
  induction repos generalizing d with
  | nil => simp
  | cons r rs ih =>
    rw [List.foldl_cons, ih]
    cases hf : fork r <;> cases hi : cfg.includeForks <;> simp [hf, hi]

/-- C1. In repo-type `org`, for one organization whose repository fetch
succeeds: the clone target list is, in fetched order, `https://<host>/<org>/<name>`
for each repository kept (include-forks set or not a fork), and the urls-only
listing writes exactly these lines, followed on the console by the total. -/
theorem org_mode_url_list (cfg : Config) (fs : Files) (F : Fetchers)
    (hfile : fs.isFile cfg.orgname = false)
    (hcreate : cfg.output ≠ "" → fs.create cfg.output = none)
    (htype : cfg.repoType = "org") :
    (∀ repos : List Repo, cfg.provider = "github" →
      F.fetchRepos cfg.token cfg.orgname = .ok repos →
      (cfg.download = true → (RunFetcher cfg fs F).targets = some
        ((repos.filter (fun r => cfg.includeForks || !r.Fork)).map
          (fun r => "https://github.com/" ++ cfg.orgname ++ "/" ++ r.Name))) ∧
      (cfg.urlsOnly = true → cfg.usernamesOnly = false → (RunFetcher cfg fs F).out =
        ((repos.filter (fun r => cfg.includeForks || !r.Fork)).map
          (fun r => (sinkOf cfg, "https://github.com/" ++ cfg.orgname ++ "/" ++ r.Name))) ++
        [(Sink.stdout, "\x1b[33m" ++ "Total repositories: " ++ "\x1b[32m" ++
          toString (repos.filter (fun r => cfg.includeForks || !r.Fork)).length ++ "\x1b[0m")])) ∧
    (∀ repos : List GitLabRepo, cfg.provider = "gitlab" →
      F.fetchGitLabRepos cfg.token cfg.orgname = .ok repos →
      (cfg.download = true → (RunFetcher cfg fs F).targets = some
        ((repos.filter (fun r => cfg.includeForks || !r.Fork)).map
          (fun r => "https://gitlab.com/" ++ cfg.orgname ++ "/" ++ r.Name))) ∧
      (cfg.urlsOnly = true → cfg.usernamesOnly = false → (RunFetcher cfg fs F).out =
        ((repos.filter (fun r => cfg.includeForks || !r.Fork)).map
          (fun r => (sinkOf cfg, "https://gitlab.com/" ++ cfg.orgname ++ "/" ++ r.Name))) ++
        [(Sink.stdout, "\x1b[33m" ++ "Total repositories: " ++ "\x1b[32m" ++
          toString (repos.filter (fun r => cfg.includeForks || !r.Fork)).length ++ "\x1b[0m")])) := by
  have hc : (if cfg.output ≠ "" then fs.create cfg.output else none) = none := by
    by_cases h : cfg.output = ""
    · simp [h]
    · simp [h, hcreate h]
  have hne : ("org" : String) ≠ "member" ∧ ("org" : String) ≠ "both" := by decide
  have hgl : ("gitlab" : String) ≠ "github" ∧ ("github" : String) ≠ "gitlab" := by decide
  refine ⟨fun repos hp hf => ⟨fun hd => ?_, fun hu hn => ?_⟩,
    fun repos hp hf => ⟨fun hd => ?_, fun hu hn => ?_⟩⟩
  · simp [RunFetcher, getOrgList, hfile, hc, hd, collectOrg, hp, hf, htype, hne,
      appendURLs_eq]
  · by_cases hd : cfg.download = true <;>
    simp [RunFetcher, getOrgList, hfile, hc, hd, collectOrg, hp, hf, htype, hne,
      appendURLs_eq, listOrg, listGitHubShort, hu, hn, hgl, orgRepoLoop_eq, totals]
  · simp [RunFetcher, getOrgList, hfile, hc, hd, collectOrg, hp, hf, htype, hne, hgl,
      appendURLs_eq]
  · by_cases hd : cfg.download = true <;>
    simp [RunFetcher, getOrgList, hfile, hc, hd, collectOrg, hp, hf, htype, hne,
      appendURLs_eq, listOrg, listGitLab, hu, hn, hgl, orgRepoLoop_eq, totals]

/-- C1, witness: "acme" with three repositories that are not forks and two forks, forks
excluded, gives exactly the three URLs. -/
theorem org_mode_url_list_witness :
    (RunFetcher acmeCfg noFiles acmeFetchers).targets = some
      ["https://github.com/acme/api", "https://github.com/acme/web",
       "https://github.com/acme/docs"] ∧
    (RunFetcher acmeCfg noFiles acmeFetchers).out =
      [(Sink.stdout, "https://github.com/acme/api"), (Sink.stdout, "https://github.com/acme/web"),
       (Sink.stdout, "https://github.com/acme/docs"),
       (Sink.stdout, "\x1b[33mTotal repositories: \x1b[32m3\x1b[0m")] :=
  have h := (org_mode_url_list acmeCfg noFiles acmeFetchers rfl (fun _ => rfl) rfl).1
    acmeRepos rfl rfl
  ⟨h.1 rfl, h.2 rfl rfl⟩

/-! ## The pagination loop -/

theorem pageLoop_serves {α : Type} [DecidableEq α] (get : String → Res apiResponse)
    (unmarshal : String → Except String (List α)) (pages : List (List α)) :
    ∀ (fuel : Nat) (url : String) (acc : List α),
      servesPages get unmarshal url pages = true → pages.length ≤ fuel →
      (pageLoop get unmarshal fuel url acc).result = some (.ok (acc ++ pages.flatten)) ∧
      (pageLoop get unmarshal fuel url acc).requests.length = pages.length := by
  induction pages with
  | nil =>
    intro fuel url acc h _
    have hu : url = "" := by simpa [servesPages] using h
    cases fuel <;> simp [pageLoop, hu]
  | cons page rest ih =>
    intro fuel url acc h hf
    cases fuel with
    | zero => simp at hf
    | succ n =>
      simp only [servesPages, Bool.and_eq_true, decide_eq_true_eq] at h
      obtain ⟨hu, h⟩ := h
      cases hg : get url with
      | err e => simp [hg] at h
      | panic => simp [hg] at h
      | ok resp =>
        simp only [hg, Bool.and_eq_true] at h
        obtain ⟨hd, hrest⟩ := h
        cases hm : unmarshal resp.Body with
        | error e => simp [hm] at hd
        | ok items =>
          simp only [hm, decide_eq_true_eq] at hd
          have hlen : rest.length ≤ n := by simpa using hf
          subst hd
          have := ih n resp.Next (acc ++ items) hrest hlen
          simp [pageLoop, hu, hg, hm, this]

theorem length_flatten_of_const {α : Type} (pages : List (List α)) (P : Nat)
    (h : ∀ p ∈ pages, p.length = P) : pages.flatten.length = pages.length * P := by
  induction pages with
  | nil => simp
  | cons p ps ih =>
    have hp : p.length = P := h p (by simp)
    have hps : ∀ q ∈ ps, q.length = P := fun q hq => h q (by simp [hq])
    simp [ih hps, hp, Nat.succ_mul, Nat.add_comm]

/-- C2. Pagination completeness: when the page source answers the initial
locator and each following `next` locator with K pages of P decodable items
each, the last one alone without a next locator, then `fetchRepos`,
`fetchMembers` and `fetchUserRepos`, allowed at least K iterations, return no
error and exactly the K*P items, the pages concatenated in page order. -/
theorem pagination_complete (net : Net) (codec : Codec) (token name : String) (K P fuel : Nat)
    (hfuel : K ≤ fuel) :
    (∀ pages : List (List Repo), pages.length = K → (∀ p ∈ pages, p.length = P) →
      servesPages (apiGet net token) codec.repos
        ("https://api.github.com/orgs/" ++ name ++ "/repos?per_page=100") pages = true →
      (fetchRepos net codec fuel token name).result = some (.ok pages.flatten) ∧
      pages.flatten.length = K * P) ∧
    (∀ pages : List (List Member), pages.length = K → (∀ p ∈ pages, p.length = P) →
      servesPages (apiGet net token) codec.members
        ("https://api.github.com/orgs/" ++ name ++ "/members") pages = true →
      (fetchMembers net codec fuel token name).result = some (.ok pages.flatten) ∧
      pages.flatten.length = K * P) ∧
    (∀ pages : List (List Repo), pages.length = K → (∀ p ∈ pages, p.length = P) →
      servesPages (apiGet net token) codec.repos
        ("https://api.github.com/users/" ++ name ++ "/repos?per_page=100") pages = true →
      (fetchUserRepos net codec fuel token name).result = some (.ok pages.flatten) ∧
      pages.flatten.length = K * P) := by
  refine ⟨fun pages hK hP hs => ⟨?_, ?_⟩, fun pages hK hP hs => ⟨?_, ?_⟩,
    fun pages hK hP hs => ⟨?_, ?_⟩⟩
  · simpa [fetchRepos] using (pageLoop_serves _ _ pages fuel _ [] hs (hK ▸ hfuel)).1
  · rw [length_flatten_of_const pages P hP, hK]
  · simpa [fetchMembers] using (pageLoop_serves _ _ pages fuel _ [] hs (hK ▸ hfuel)).1
  · rw [length_flatten_of_const pages P hP, hK]
  · simpa [fetchUserRepos] using (pageLoop_serves _ _ pages fuel _ [] hs (hK ▸ hfuel)).1
  · rw [length_flatten_of_const pages P hP, hK]

/-- C2, witness: two pages of two repositories each are returned as the four
repositories in page order; and a single empty page gives the empty list with
no error. -/
theorem pagination_complete_witness :
    (fetchRepos twoPageNet pageCodec 2 "t" "acme").result = some (.ok
      [⟨"api", false, 10, "acme"⟩, ⟨"web", false, 30, "acme"⟩,
       ⟨"docs", false, 50, "acme"⟩, ⟨"old", true, 5, "acme"⟩]) ∧
    (fetchRepos twoPageNet pageCodec 1 "t" "none").result = some (.ok []) :=
  ⟨((pagination_complete twoPageNet pageCodec "t" "acme" 2 2 2 (by decide)).1
      [[⟨"api", false, 10, "acme"⟩, ⟨"web", false, 30, "acme"⟩],
       [⟨"docs", false, 50, "acme"⟩, ⟨"old", true, 5, "acme"⟩]]
      rfl (by decide) (by decide)).1,
   ((pagination_complete twoPageNet pageCodec "t" "none" 1 0 1 (by decide)).1
      [[]] rfl (by decide) (by decide)).1⟩

/-! ## The worker pool -/

theorem owed_set (git : Git) (w w1 : Worker) :
    ∀ (ws : List Worker) (k : Nat), ws[k]? = some w →
      (((ws.set k w1).flatMap (Worker.owed git) : List String) : Multiset String) +
          ((Worker.owed git w : List String) : Multiset String) =
        ((ws.flatMap (Worker.owed git) : List String) : Multiset String) +
          ((Worker.owed git w1 : List String) : Multiset String) := by
  intro ws
  induction ws with
  | nil => intro k h; simp at h
  | cons a as ih =>
    intro k h
    cases k with
    | zero =>
      simp at h
      subst h
      simp only [List.set_cons_zero, List.flatMap_cons, ← Multiset.coe_add]
      abel
    | succ k =>
      simp at h
      have := ih k h
      simp only [List.set_cons_succ, List.flatMap_cons, ← Multiset.coe_add]
      rw [add_assoc, this]
      abel

theorem weight_set (w w1 : Worker) :
    ∀ (ws : List Worker) (k : Nat), ws[k]? = some w →
      ((ws.set k w1).map Worker.weight).sum + w.weight =
        (ws.map Worker.weight).sum + w1.weight := by
  intro ws
  induction ws with
  | nil => intro k h; simp at h
  | cons a as ih =>
    intro k h
    cases k with
    | zero =>
      simp at h
      subst h
      simp only [List.set_cons_zero, List.map_cons, List.sum_cons]
      omega
    | succ k =>
      simp at h
      have := ih k h
      simp only [List.set_cons_succ, List.map_cons, List.sum_cons]
      omega

/-- Every step uses up one of the steps left. -/
theorem step_stepsLeft (P : PoolCfg) (s s1 : Pool) (a : Actor) (h : step P s a = some s1) :
    stepsLeft P s1 + 1 ≤ stepsLeft P s := by
  unfold step at h
  split at h
  · simp at h
  · cases a with
    | main =>
      simp only [stepMain] at h
      split at h
      · rename_i w hpc
        split at h
        · rename_i hw
          simp at h; subst h
          have : w < P.parallel.toNat := by omega
          simp [stepsLeft, hpc, mainWeight, unsent, Worker.weight]
          omega
        · rename_i hw
          simp at h; subst h
          have : P.parallel.toNat - w = 0 := by omega
          simp [stepsLeft, hpc, mainWeight, unsent, this]
          omega
      · rename_i url rest hpc
        split at h
        · simp at h; subst h
          simp [stepsLeft, hpc, mainWeight, unsent]
          omega
        · simp at h
      · rename_i hpc
        simp at h; subst h
        simp [stepsLeft, hpc, mainWeight, unsent]
        omega
      · rename_i i hpc
        split at h
        · rename_i hi
          split at h
          · simp at h; subst h
            simp [stepsLeft, hpc, mainWeight, unsent]
            omega
          · simp at h
        · rename_i hi
          simp at h; subst h
          simp [stepsLeft, hpc, mainWeight, unsent]
          omega
      · simp at h
    | worker k =>
      simp only [stepWorker] at h
      split at h
      · simp at h
      · rename_i hk
        split at h
        · rename_i url rest hj
          simp at h; subst h
          have := weight_set .recv (.clone url) s.workers k hk
          simp [stepsLeft, hj, Worker.weight] at this ⊢
          omega
        · rename_i hj
          split at h
          · simp at h; subst h
            have := weight_set .recv .exited s.workers k hk
            simp [stepsLeft, hj, Worker.weight] at this ⊢
            omega
          · simp at h
      · rename_i url hk
        simp at h; subst h
        have := weight_set (.clone url) (.send (outcome P.git url)) s.workers k hk
        simp [stepsLeft, Worker.weight] at this ⊢
        omega
      · rename_i line hk
        split at h
        · simp at h; subst h
          have := weight_set (.send line) .recv s.workers k hk
          simp [stepsLeft, Worker.weight] at this ⊢
          omega
        · simp at h
      · simp at h

theorem exec_stepsLeft (P : PoolCfg) :
    ∀ (sched : List Actor) (s s1 : Pool), exec P s sched = some s1 →
      sched.length + stepsLeft P s1 ≤ stepsLeft P s := by
  intro sched
  induction sched with
  | nil => intro s s1 h; simp [exec] at h; subst h; simp
  | cons a rest ih =>
    intro s s1 h
    simp only [exec] at h
    cases hs : step P s a with
    | none => simp [hs] at h
    | some s2 =>
      simp only [hs] at h
      have h1 := step_stepsLeft P s s2 a hs
      have h2 := ih s2 s1 h
      simp
      omega

theorem init_inv (P : PoolCfg) : PoolInv P Pool.init := by
  refine ⟨?_, ?_, ?_⟩
  · simp [tally, Pool.init, unsent]
  · simp [mainInv, Pool.init]
  · simp [Pool.init]

theorem mem_set_workers {ws : List Worker} {k : Nat} {w : Worker}
    (hne : w ≠ Worker.exited) (h : Worker.exited ∈ ws.set k w) : Worker.exited ∈ ws := by
  rcases List.mem_or_eq_of_mem_set h with h1 | h1
  · exact h1
  · exact absurd h1.symm hne

/-- Every step keeps the invariant of the pool. -/
theorem step_inv (P : PoolCfg) (s s1 : Pool) (a : Actor) (hinv : PoolInv P s)
    (h : step P s a = some s1) : PoolInv P s1 := by
  obtain ⟨ht, hm, he⟩ := hinv
  unfold step at h
  split at h
  · simp at h
  · cases a with
    | main =>
      simp only [stepMain] at h
      split at h
      · rename_i w hpc
        simp only [mainInv, hpc] at hm
        split at h
        · rename_i hw
          simp at h; subst h
          refine ⟨?_, ?_, ?_⟩
          · simpa [tally, hpc, unsent, Worker.owed] using ht
          · simp [mainInv, hm]
            omega
          · intro hx
            simp at hx
            exact he hx
        · rename_i hw
          simp at h; subst h
          refine ⟨?_, ?_, ?_⟩
          · simpa [tally, hpc, unsent, Worker.owed] using ht
          · simp [mainInv, hm]
            omega
          · simpa using he
      · rename_i url rest hpc
        simp only [mainInv, hpc] at hm
        split at h
        · simp at h; subst h
          refine ⟨?_, ?_, ?_⟩
          · simp only [tally, hpc, unsent, List.map_append, List.map_cons, List.map_nil,
              ← Multiset.coe_add] at ht ⊢
            rw [← ht]
            simp only [← Multiset.singleton_add, ← Multiset.cons_coe, Multiset.coe_nil,
              Multiset.cons_zero]
            abel
          · simp [mainInv, hm]
          · intro hx
            have := he hx
            simp [hm.2.1] at this
        · simp at h
      · rename_i hpc
        simp only [mainInv, hpc] at hm
        simp at h; subst h
        refine ⟨?_, ?_, ?_⟩
        · simpa [tally, hpc, unsent] using ht
        · simp [mainInv, hm]
        · intro hx
          have := he hx
          simp [hm.2.1] at this
      · rename_i i hpc
        simp only [mainInv, hpc] at hm
        split at h
        · rename_i hi
          split at h
          · rename_i line rest hr
            simp at h; subst h
            refine ⟨?_, ?_, ?_⟩
            · simp only [tally, hpc, unsent, hr, ← Multiset.coe_add] at ht ⊢
              rw [← ht]
              simp only [← Multiset.singleton_add, ← Multiset.cons_coe, Multiset.coe_nil,
                Multiset.cons_zero]
              abel
            · simp [mainInv, hm]
            · simpa using he
          · simp at h
        · rename_i hi
          simp at h; subst h
          refine ⟨?_, ?_, ?_⟩
          · simpa [tally, hpc, unsent] using ht
          · simp [mainInv]
            omega
          · simpa using he
      · simp at h
    | worker k =>
      simp only [stepWorker] at h
      split at h
      · simp at h
      · rename_i hk
        split at h
        · rename_i url rest hj
          simp at h; subst h
          have hs := owed_set P.git .recv (.clone url) s.workers k hk
          refine ⟨?_, ?_, ?_⟩
          · simp only [tally, hj, List.map_cons, ← Multiset.coe_add] at ht ⊢
            simp only [Worker.owed] at hs
            rw [← ht]
            simp only [← Multiset.singleton_add, ← Multiset.cons_coe, Multiset.coe_nil,
              Multiset.cons_zero, add_zero] at hs ⊢
            rw [hs]
            abel
          · cases hpc : s.pc <;> simp [mainInv, hpc] at hm ⊢ <;> simp [hm]
          · intro hx
            have := he (mem_set_workers (by simp) hx)
            simp [hj] at this
        · rename_i hj
          split at h
          · rename_i hc
            simp at h; subst h
            have hs := owed_set P.git .recv .exited s.workers k hk
            refine ⟨?_, ?_, ?_⟩
            · simp only [tally] at ht ⊢
              simp only [Worker.owed, Multiset.coe_nil, add_zero] at hs
              rw [hs]
              exact ht
            · cases hpc : s.pc <;> simp [mainInv, hpc] at hm ⊢ <;> simp [hm]
            · intro _
              exact ⟨hc, hj⟩
          · simp at h
      · rename_i url hk
        simp at h; subst h
        have hs := owed_set P.git (.clone url) (.send (outcome P.git url)) s.workers k hk
        refine ⟨?_, ?_, ?_⟩
        · simp only [tally] at ht ⊢
          simp only [Worker.owed] at hs
          have hs1 := add_right_cancel hs
          rw [hs1]
          exact ht
        · cases hpc : s.pc <;> simp [mainInv, hpc] at hm ⊢ <;> simp [hm]
        · intro hx
          exact he (mem_set_workers (by simp) hx)
      · rename_i line hk
        split at h
        · simp at h; subst h
          have hs := owed_set P.git (.send line) .recv s.workers k hk
          refine ⟨?_, ?_, ?_⟩
          · simp only [tally, ← Multiset.coe_add] at ht ⊢
            simp only [Worker.owed, Multiset.coe_nil, add_zero] at hs
            rw [← ht, ← hs]
            abel
          · cases hpc : s.pc <;> simp [mainInv, hpc] at hm ⊢ <;> simp [hm]
          · intro hx
            exact he (mem_set_workers (by simp) hx)
        · simp at h
      · simp at h

theorem exec_inv (P : PoolCfg) :
    ∀ (sched : List Actor) (s s1 : Pool), PoolInv P s → exec P s sched = some s1 →
      PoolInv P s1 := by
  intro sched
  induction sched with
  | nil => intro s s1 hi h; simp [exec] at h; subst h; exact hi
  | cons a rest ih =>
    intro s s1 hi h
    simp only [exec] at h
    cases hs : step P s a with
    | none => simp [hs] at h
    | some s2 =>
      simp only [hs] at h
      exact ih s2 s1 (step_inv P s s2 a hi hs) h

/-- The lines of the pool are as many as the targets. -/
theorem tally_card (P : PoolCfg) (s : Pool) (hinv : PoolInv P s) :
    s.printed.length + s.results.length + (s.workers.flatMap (Worker.owed P.git)).length +
      s.jobs.length + (unsent P s.pc).length = P.repoURLs.length := by
  have := congrArg Multiset.card hinv.tally_eq
  simp only [tally, Multiset.card_add, Multiset.coe_card, List.length_map] at this
  exact this

theorem owed_all_exited (git : Git) (ws : List Worker) (h : ∀ w ∈ ws, w = Worker.exited) :
    ws.flatMap (Worker.owed git) = [] := by
  induction ws with
  | nil => simp
  | cons a as ih =>
    have ha : a = Worker.exited := h a (by simp)
    have has : ∀ w ∈ as, w = Worker.exited := fun w hw => h w (by simp [hw])
    simp [ha, Worker.owed, ih has]

/-- With at least one worker, a pool in which no goroutine can step has
finished: the main goroutine has returned. -/
theorem no_deadlock (P : PoolCfg) (hN : 1 ≤ P.parallel) (s : Pool) (hinv : PoolInv P s)
    (hstuck : ∀ a, step P s a = none) : s.pc = .done := by
  by_contra hne
  have hcard := tally_card P s hinv
  have hmain := hstuck .main
  have hwork := fun k => hstuck (.worker k)
  simp only [step, hne, if_false] at hmain hwork
  have hm := hinv.main_ok
  cases hpc : s.pc with
  | spawning w =>
    simp only [stepMain, hpc] at hmain
    split at hmain <;> simp at hmain
  | sending rest =>
    cases rest with
    | nil => simp [stepMain, hpc] at hmain
    | cons url rest =>
      simp only [stepMain, hpc] at hmain
      simp only [hpc, unsent, List.length_cons] at hcard
      split at hmain
      · simp at hmain
      · omega
  | draining i =>
    simp only [mainInv, hpc] at hm
    simp only [stepMain, hpc] at hmain
    split at hmain
    · rename_i hi
      split at hmain
      · simp at hmain
      · rename_i hr
        have hall : ∀ w ∈ s.workers, w = Worker.exited := by
          intro w hw
          obtain ⟨k, hk, hkw⟩ := List.getElem_of_mem hw
          have hk2 : s.workers[k]? = some w := by
            rw [List.getElem?_eq_getElem hk, hkw]
          have := hwork k
          simp only [stepWorker, hk2] at this
          cases w with
          | recv =>
            simp only at this
            split at this
            · simp at this
            · simp [hm.2.1] at this
          | clone url => simp at this
          | send line =>
            simp only [hr, List.length_nil] at this
            split at this
            · simp at this
            · omega
          | exited => rfl
        have hpos : 0 < s.workers.length := by
          rw [hm.1]; omega
        have hex : Worker.exited ∈ s.workers := by
          have := hall _ (List.getElem_mem hpos)
          rw [← this]
          exact List.getElem_mem hpos
        have hj := (hinv.exited_ok hex).2
        simp only [hpc, unsent, hr, hj, owed_all_exited P.git s.workers hall, List.length_nil] at hcard
        omega
    · simp at hmain
  | done => exact hne hpc

/-- A pool that satisfies the invariant, with at least one worker, can always
be run to the end. -/
theorem can_finish (P : PoolCfg) (hN : 1 ≤ P.parallel) :
    ∀ (n : Nat) (s : Pool), PoolInv P s → stepsLeft P s ≤ n →
      ∃ more s1, exec P s more = some s1 ∧ s1.pc = .done := by
  intro n
  induction n with
  | zero =>
    intro s hinv hn
    refine ⟨[], s, rfl, no_deadlock P hN s hinv ?_⟩
    intro a
    cases hs : step P s a with
    | none => rfl
    | some s2 =>
      have := step_stepsLeft P s s2 a hs
      omega
  | succ n ih =>
    intro s hinv hn
    by_cases hstuck : ∀ a, step P s a = none
    · exact ⟨[], s, rfl, no_deadlock P hN s hinv hstuck⟩
    · push_neg at hstuck
      obtain ⟨a, ha⟩ := hstuck
      cases hs : step P s a with
      | none => exact absurd hs ha
      | some s2 =>
        have h1 := step_stepsLeft P s s2 a hs
        obtain ⟨more, s1, hx, hd⟩ := ih s2 (step_inv P s s2 a hinv hs) (by omega)
        exact ⟨a :: more, s1, by simp [exec, hs, hx], hd⟩

/-- C3. Exactly one outcome per target: with `parallel >= 1`, along every run
of the worker pool the number of steps is bounded, a state in which no
goroutine can step is one where `RunFetcher` has returned, every run can be
continued until it returns, and when it has returned it has printed exactly
`len(repoURLs)` lines, which are, as a multiset, `Cloned: <url>` for each
target the clone succeeds on and `Failed: <url> (<error>)` for each it fails
on, whatever the number of workers and the interleaving. -/
theorem pool_exactly_one_outcome (P : PoolCfg) (hN : 1 ≤ P.parallel) (sched : List Actor)
    (s : Pool) (h : exec P Pool.init sched = some s) :
    sched.length ≤ 2 * P.parallel.toNat + 5 * P.repoURLs.length + 3 ∧
    ((∀ a, step P s a = none) → s.pc = .done) ∧
    (∃ more s1, exec P s more = some s1 ∧ s1.pc = .done) ∧
    (s.pc = .done → s.printed.length = P.repoURLs.length ∧
      (s.printed : Multiset String) =
        ((P.repoURLs.map (outcome P.git) : List String) : Multiset String)) := by
  have hinv := exec_inv P sched Pool.init s (init_inv P) h
  refine ⟨?_, no_deadlock P hN s hinv, can_finish P hN _ s hinv (le_refl _), ?_⟩
  · have := exec_stepsLeft P sched Pool.init s h
    simp [stepsLeft, Pool.init, mainWeight, unsent] at this
    omega
  · intro hd
    have hcard := tally_card P s hinv
    have hm := hinv.main_ok
    simp only [mainInv, hd] at hm
    have hlen : s.printed.length = P.repoURLs.length := by omega
    have hr : s.results = [] := List.eq_nil_of_length_eq_zero (by omega)
    have hj : s.jobs = [] := List.eq_nil_of_length_eq_zero (by omega)
    have ho : s.workers.flatMap (Worker.owed P.git) = [] :=
      List.eq_nil_of_length_eq_zero (by omega)
    refine ⟨hlen, ?_⟩
    have ht := hinv.tally_eq
    simpa [tally, hd, unsent, hr, hj, ho] using ht

/-- C3, witness: two workers, five targets, the third fails: the run of
`demoSched` prints five lines, four `Cloned` and one `Failed`, which are the
outcomes of the five targets as a multiset although not in their order. -/
theorem pool_exactly_one_outcome_witness :
    exec demoPool Pool.init demoSched = some demoDone ∧
    demoDone.printed.length = 5 ∧
    (demoDone.printed : Multiset String) =
      (["Cloned: https://github.com/acme/a", "Cloned: https://github.com/acme/b",
        "Failed: https://github.com/acme/c (git clone failed: exit status 128\nfatal: repository not found)",
        "Cloned: https://github.com/acme/d", "Cloned: https://github.com/acme/e"] : List String) ∧
    (demoDone.printed.filter (fun l => "Cloned: ".toList.isPrefixOf l.toList)).length = 4 ∧
    (demoDone.printed.filter (fun l => "Failed: ".toList.isPrefixOf l.toList)).length = 1 :=
  have hrun : exec demoPool Pool.init demoSched = some demoDone := by decide
  have h := (pool_exactly_one_outcome demoPool (by decide) demoSched demoDone hrun).2.2.2 rfl
  ⟨hrun, h.1, h.2, by decide, by decide⟩

/-! ## Member loops and the per-organization body -/

theorem userRepoLoop_eq {ρ : Type} (cfg : Config) (name : ρ → String) (fork : ρ → Bool)
    (host owner : String) (repos : List ρ) (st : St) :
    userRepoLoop cfg name fork host owner repos st =
      { out := st.out ++ (repos.filter (fun r => cfg.includeForks || !fork r)).map
          (fun r => (sinkOf cfg, host ++ owner ++ "/" ++ name r))
        totalMembers := st.totalMembers
        totalRepos := st.totalRepos
        totalMemberRepos := st.totalMemberRepos +
          (repos.filter (fun r => cfg.includeForks || !fork r)).length } := by
  unfold userRepoLoop
  induction repos generalizing st with
  | nil => simp
  | cons r rs ih =>
    rw [List.foldl_cons, ih]
    cases hf : fork r <;> cases hi : cfg.includeForks <;>
      simp [St.put, hf, hi, Nat.add_assoc, Nat.add_comm 1]

/-- When every member's fetch succeeds, the member loop of the listing writes
the kept repositories of each member, member after member. -/
theorem memberLoop_ok {ρ : Type} (cfg : Config) (name : ρ → String) (fork : ρ → Bool)
    (host : String) (fetchUser : String → Except String (List ρ)) (reposOf : String → List ρ)
    (members : List String) (st : St) (hok : ∀ m ∈ members, fetchUser m = .ok (reposOf m)) :
    memberLoop cfg name fork host fetchUser members st =
      { out := st.out ++ members.flatMap (fun m =>
          ((reposOf m).filter (fun r => cfg.includeForks || !fork r)).map
            (fun r => (sinkOf cfg, host ++ m ++ "/" ++ name r)))
        totalMembers := st.totalMembers
        totalRepos := st.totalRepos
        totalMemberRepos := st.totalMemberRepos + (members.flatMap (fun m =>
          ((reposOf m).filter (fun r => cfg.includeForks || !fork r)))).length } := by
  unfold memberLoop
  induction members generalizing st with
  | nil => simp
  | cons m ms ih =>
    have hm : fetchUser m = .ok (reposOf m) := hok m (by simp)
    have hms : ∀ x ∈ ms, fetchUser x = .ok (reposOf x) := fun x hx => hok x (by simp [hx])
    rw [List.foldl_cons, ih _ hms]
    simp [hm, userRepoLoop_eq, Nat.add_assoc]

/-- The member loop of the download phase only appends: its lines and its
URLs are those it produces from the empty state. -/
theorem collectMembers_append {ρ : Type} (cfg : Config) (name : ρ → String) (fork : ρ → Bool)
    (host : String) (fetchUser : String → Except String (List ρ))
    (members : List String) (d : Dl) :
    collectMembers cfg name fork host fetchUser members d =
      { out := d.out ++
          (collectMembers cfg name fork host fetchUser members { out := [], repoURLs := [] }).out
        repoURLs := d.repoURLs ++
          (collectMembers cfg name fork host fetchUser members { out := [], repoURLs := [] }).repoURLs } := by
  unfold collectMembers
  induction members generalizing d with
  | nil => simp
  | cons m ms ih =>
    rw [List.foldl_cons, List.foldl_cons, ih]
    conv_rhs => rw [ih]
    cases hm : fetchUser m with
    | error e => simp [Dl.print]
    | ok repos => simp [appendURLs_eq]

/-- When every member's fetch succeeds, the member loop of the download phase
appends the kept repositories of each member, member after member. -/
theorem collectMembers_ok {ρ : Type} (cfg : Config) (name : ρ → String) (fork : ρ → Bool)
    (host : String) (fetchUser : String → Except String (List ρ)) (reposOf : String → List ρ)
    (members : List String) (d : Dl) (hok : ∀ m ∈ members, fetchUser m = .ok (reposOf m)) :
    collectMembers cfg name fork host fetchUser members d =
      { out := d.out
        repoURLs := d.repoURLs ++ members.flatMap (fun m =>
          ((reposOf m).filter (fun r => cfg.includeForks || !fork r)).map
            (fun r => host ++ m ++ "/" ++ name r)) } := by
  unfold collectMembers
  induction members generalizing d with
  | nil => simp
  | cons m ms ih =>
    have hm : fetchUser m = .ok (reposOf m) := hok m (by simp)
    have hms : ∀ x ∈ ms, fetchUser x = .ok (reposOf x) := fun x hx => hok x (by simp [hx])
    rw [List.foldl_cons, ih _ hms]
    simp [hm, appendURLs_eq]

/-- The body of the collection loop only appends to the lines and to
`repoURLs`. -/
theorem collectOrg_append (cfg : Config) (F : Fetchers) (d : Dl) (org : String) :
    collectOrg cfg F d org =
      { out := d.out ++ (collectOrg cfg F { out := [], repoURLs := [] } org).out
        repoURLs := d.repoURLs ++ (collectOrg cfg F { out := [], repoURLs := [] } org).repoURLs } := by
  unfold collectOrg
  split
  · cases F.fetchRepos cfg.token org with
    | error e => simp [Dl.print]
    | ok repos =>
      simp only [appendURLs_eq]
      split
      · cases githubMembers cfg F org with
        | error e => simp [Dl.print]
        | ok members =>
          simp only []
          rw [collectMembers_append]
          conv_rhs => rw [collectMembers_append]
          simp
      · simp
  · split
    · cases F.fetchGitLabRepos cfg.token org with
      | error e => simp [Dl.print]
      | ok repos =>
        simp only [appendURLs_eq]
        split
        · cases selectMembers cfg (fun _ =>
              (F.fetchGitLabMembers cfg.token org).map (fun l => l.map GitLabMember.Username)) with
          | error e => simp [Dl.print]
          | ok members =>
            simp only []
            rw [collectMembers_append]
            conv_rhs => rw [collectMembers_append]
            simp
        · simp
    · simp

/-- The collection loop over the organizations concatenates what each
organization contributes from the empty state. -/
theorem collect_foldl (cfg : Config) (F : Fetchers) (orgs : List String) (d : Dl) :
    (orgs.foldl (collectOrg cfg F) d).repoURLs =
      d.repoURLs ++ orgs.flatMap (fun org =>
        (collectOrg cfg F { out := [], repoURLs := [] } org).repoURLs) := by
  induction orgs generalizing d with
  | nil => simp
  | cons o os ih =>
    rw [List.foldl_cons, ih, collectOrg_append]
    simp

/-- C5. In repo-type `both`, for one organization all of whose fetches succeed:
the clone target list and the lines of the urls-only listing are the URLs of
the kept organization-owned repositories in fetched order, followed by the
URLs of the kept member-owned repositories, member after member in
membership order (the supplied member alone when the `member` flag is set),
each member's repositories in fetched order. -/
theorem both_mode_order (cfg : Config) (fs : Files) (F : Fetchers)
    (hfile : fs.isFile cfg.orgname = false)
    (hcreate : cfg.output ≠ "" → fs.create cfg.output = none)
    (htype : cfg.repoType = "both") :
    (∀ (repos : List Repo) (ms : List Member) (reposOf : String → List Repo),
      cfg.provider = "github" →
      F.fetchRepos cfg.token cfg.orgname = .ok repos →
      (cfg.member = "" → F.fetchMembers cfg.token cfg.orgname = .ok ms) →
      (∀ m ∈ (if cfg.member ≠ "" then [cfg.member] else ms.map Member.Login),
        F.fetchUserRepos cfg.token m = .ok (reposOf m)) →
      (cfg.download = true → (RunFetcher cfg fs F).targets = some
        ((repos.filter (fun r => cfg.includeForks || !r.Fork)).map
            (fun r => "https://github.com/" ++ cfg.orgname ++ "/" ++ r.Name) ++
          (if cfg.member ≠ "" then [cfg.member] else ms.map Member.Login).flatMap (fun m =>
            ((reposOf m).filter (fun r => cfg.includeForks || !r.Fork)).map
              (fun r => "https://github.com/" ++ m ++ "/" ++ r.Name)))) ∧
      (cfg.urlsOnly = true → cfg.usernamesOnly = false → (RunFetcher cfg fs F).out =
          ((repos.filter (fun r => cfg.includeForks || !r.Fork)).map
              (fun r => "https://github.com/" ++ cfg.orgname ++ "/" ++ r.Name) ++
            (if cfg.member ≠ "" then [cfg.member] else ms.map Member.Login).flatMap (fun m =>
              ((reposOf m).filter (fun r => cfg.includeForks || !r.Fork)).map
                (fun r => "https://github.com/" ++ m ++ "/" ++ r.Name))).map
            (fun url => (sinkOf cfg, url)) ++
        totals cfg
          { out := [], totalMembers := 0
            totalRepos := (repos.filter (fun r => cfg.includeForks || !r.Fork)).length
            totalMemberRepos :=
              ((if cfg.member ≠ "" then [cfg.member] else ms.map Member.Login).flatMap (fun m =>
                (reposOf m).filter (fun r => cfg.includeForks || !r.Fork))).length })) ∧
    (∀ (repos : List GitLabRepo) (ms : List GitLabMember) (reposOf : String → List GitLabRepo),
      cfg.provider = "gitlab" →
      F.fetchGitLabRepos cfg.token cfg.orgname = .ok repos →
      (cfg.member = "" → F.fetchGitLabMembers cfg.token cfg.orgname = .ok ms) →
      (∀ m ∈ (if cfg.member ≠ "" then [cfg.member] else ms.map GitLabMember.Username),
        F.fetchGitLabUserRepos cfg.token m = .ok (reposOf m)) →
      (cfg.download = true → (RunFetcher cfg fs F).targets = some
        ((repos.filter (fun r => cfg.includeForks || !r.Fork)).map
            (fun r => "https://gitlab.com/" ++ cfg.orgname ++ "/" ++ r.Name) ++
          (if cfg.member ≠ "" then [cfg.member] else ms.map GitLabMember.Username).flatMap
            (fun m => ((reposOf m).filter (fun r => cfg.includeForks || !r.Fork)).map
              (fun r => "https://gitlab.com/" ++ m ++ "/" ++ r.Name)))) ∧
      (cfg.urlsOnly = true → cfg.usernamesOnly = false → (RunFetcher cfg fs F).out =
          ((repos.filter (fun r => cfg.includeForks || !r.Fork)).map
              (fun r => "https://gitlab.com/" ++ cfg.orgname ++ "/" ++ r.Name) ++
            (if cfg.member ≠ "" then [cfg.member] else ms.map GitLabMember.Username).flatMap
              (fun m => ((reposOf m).filter (fun r => cfg.includeForks || !r.Fork)).map
                (fun r => "https://gitlab.com/" ++ m ++ "/" ++ r.Name))).map
            (fun url => (sinkOf cfg, url)) ++
        totals cfg
          { out := [], totalMembers := 0
            totalRepos := (repos.filter (fun r => cfg.includeForks || !r.Fork)).length
            totalMemberRepos :=
              ((if cfg.member ≠ "" then [cfg.member] else ms.map GitLabMember.Username).flatMap
                (fun m => (reposOf m).filter (fun r => cfg.includeForks || !r.Fork))).length })) := by
  have hc : (if cfg.output ≠ "" then fs.create cfg.output else none) = none := by
    by_cases h : cfg.output = ""
    · simp [h]
    · simp [h, hcreate h]
  have hne : ("both" : String) ≠ "member" ∧ ("both" : String) ≠ "org" := by decide
  have hgl : ("gitlab" : String) ≠ "github" ∧ ("github" : String) ≠ "gitlab" := by decide
  refine ⟨fun repos ms reposOf hp hf hmem hok => ?_, fun repos ms reposOf hp hf hmem hok => ?_⟩
  · have hsel : githubMembers cfg F cfg.orgname =
        .ok (if cfg.member ≠ "" then [cfg.member] else ms.map Member.Login) := by
      by_cases h : cfg.member = ""
      · simp [githubMembers, selectMembers, h, hmem h, Except.map]
      · simp [githubMembers, selectMembers, h]
    generalize (if cfg.member ≠ "" then [cfg.member] else ms.map Member.Login) = members
      at hok hsel ⊢
    refine ⟨fun hd => ?_, fun hu hn => ?_⟩
    · simp [RunFetcher, getOrgList, hfile, hc, hd, collectOrg, hp, hf, htype, hsel,
        appendURLs_eq, collectMembers_ok _ _ _ _ _ reposOf _ _ hok]
    · by_cases hd : cfg.download = true <;>
      simp [RunFetcher, getOrgList, hfile, hc, hd, collectOrg, hp, hf, htype, hne, hsel,
        appendURLs_eq, collectMembers_ok _ _ _ _ _ reposOf _ _ hok, listOrg, listGitHubShort,
        hu, hn, hgl, orgRepoLoop_eq, memberLoop_ok _ _ _ _ _ reposOf _ _ hok, totals,
        List.map_flatMap, Function.comp_def]
  · have hsel : selectMembers cfg (fun _ =>
          (F.fetchGitLabMembers cfg.token cfg.orgname).map
            (fun l => l.map GitLabMember.Username)) =
        .ok (if cfg.member ≠ "" then [cfg.member] else ms.map GitLabMember.Username) := by
      by_cases h : cfg.member = ""
      · simp [selectMembers, h, hmem h, Except.map]
      · simp [selectMembers, h]
    generalize (if cfg.member ≠ "" then [cfg.member] else ms.map GitLabMember.Username) = members
      at hok hsel ⊢
    refine ⟨fun hd => ?_, fun hu hn => ?_⟩
    · simp [RunFetcher, getOrgList, hfile, hc, hd, collectOrg, hp, hf, htype, hsel, hgl,
        appendURLs_eq, collectMembers_ok _ _ _ _ _ reposOf _ _ hok]
    · by_cases hd : cfg.download = true <;>
      simp [RunFetcher, getOrgList, hfile, hc, hd, collectOrg, hp, hf, htype, hne, hsel,
        appendURLs_eq, collectMembers_ok _ _ _ _ _ reposOf _ _ hok, listOrg, listGitLab,
        hu, hn, hgl, orgRepoLoop_eq, memberLoop_ok _ _ _ _ _ reposOf _ _ hok, totals,
        List.map_flatMap, Function.comp_def]

/-- C5, witness: "acme" in `both` mode gives its three kept repositories, then
the kept repository of bob, then that of eve. -/
theorem both_mode_order_witness :
    (RunFetcher { acmeCfg with repoType := "both" } noFiles acmeFetchers).targets = some
      ["https://github.com/acme/api", "https://github.com/acme/web",
       "https://github.com/acme/docs", "https://github.com/bob/dot",
       "https://github.com/eve/lab"] ∧
    (RunFetcher { acmeCfg with repoType := "both" } noFiles acmeFetchers).out =
      [(Sink.stdout, "https://github.com/acme/api"), (Sink.stdout, "https://github.com/acme/web"),
       (Sink.stdout, "https://github.com/acme/docs"), (Sink.stdout, "https://github.com/bob/dot"),
       (Sink.stdout, "https://github.com/eve/lab"),
       (Sink.stdout, "\x1b[33mTotal repositories: \x1b[32m3\x1b[0m"),
       (Sink.stdout, "\x1b[33mTotal member-owned repositories: \x1b[32m2\x1b[0m")] :=
  have h := (both_mode_order { acmeCfg with repoType := "both" } noFiles acmeFetchers rfl
    (fun _ => rfl) rfl).1 acmeRepos [⟨"bob"⟩, ⟨"eve"⟩] acmeUserRepos rfl rfl (fun _ => rfl)
    (by
      intro m hm
      change m ∈ ["bob", "eve"] at hm
      simp only [List.mem_cons, List.mem_singleton, List.not_mem_nil, or_false] at hm
      rcases hm with rfl | rfl <;> rfl)
  ⟨h.1 rfl, h.2 rfl rfl⟩

/-- C4, the code at the failing input: with `--repo-type member --download`
the clone targets of "acme" start with the three organization-owned
repositories, which the urls-only listing of the same run does not list; and
when the organization's own repository list cannot be fetched the member
repositories are listed but not cloned. -/
theorem member_mode_download_eval :
    (RunFetcher { acmeCfg with repoType := "member" } noFiles acmeFetchers) =
      { out := [(Sink.stdout, "https://github.com/bob/dot"),
          (Sink.stdout, "https://github.com/eve/lab"),
          (Sink.stdout, "\x1b[33mTotal member-owned repositories: \x1b[32m2\x1b[0m")]
        targets := some ["https://github.com/acme/api", "https://github.com/acme/web",
          "https://github.com/acme/docs", "https://github.com/bob/dot",
          "https://github.com/eve/lab"] } ∧
    (RunFetcher { acmeCfg with repoType := "member" } noFiles orgDownFetchers) =
      { out := [(Sink.stdout, "https://github.com/bob/dot"),
          (Sink.stdout, "https://github.com/eve/lab"),
          (Sink.stdout, "\x1b[33mTotal member-owned repositories: \x1b[32m2\x1b[0m"),
          (Sink.stdout, "Error fetching repos: 403")]
        targets := some [] } := by
  decide

/-- C6. Per-organization isolation: when `orgname` names a file, the clone
target list is the concatenation, in the order of the non-empty lines, of the
target list each identifier gives when it is passed alone as `orgname`; so what
happens to one identifier (a failed fetch included) changes nothing for the
others. -/
theorem per_org_isolation (cfg : Config) (fs : Files) (F : Fetchers) (lines : List String)
    (hfile : fs.isFile cfg.orgname = true)
    (hread : fs.readLines cfg.orgname = .ok lines)
    (hcreate : cfg.output ≠ "" → fs.create cfg.output = none)
    (hd : cfg.download = true) :
    (RunFetcher cfg fs F).targets = some
      ((lines.filter (fun line => line ≠ "")).flatMap (fun org =>
        ((RunFetcher { cfg with orgname := org } noFiles F).targets).getD [])) := by
  have hc : (if cfg.output ≠ "" then fs.create cfg.output else none) = none := by
    by_cases h : cfg.output = ""
    · simp [h]
    · simp [h, hcreate h]
  have hone : ∀ org, ((RunFetcher { cfg with orgname := org } noFiles F).targets).getD [] =
      (collectOrg cfg F { out := [], repoURLs := [] } org).repoURLs := by
    intro org
    have h1 : ∀ d, collectOrg { cfg with orgname := org } F d org = collectOrg cfg F d org :=
      fun _ => rfl
    have h2 : (RunFetcher { cfg with orgname := org } noFiles F).targets =
        some (collectOrg { cfg with orgname := org } F
          { out := (listOrg { cfg with orgname := org } F
                { out := [], totalMembers := 0, totalRepos := 0, totalMemberRepos := 0 } org).out ++
              totals { cfg with orgname := org }
                (listOrg { cfg with orgname := org } F
                  { out := [], totalMembers := 0, totalRepos := 0, totalMemberRepos := 0 } org)
            repoURLs := [] } org).repoURLs := by
      unfold RunFetcher
      simp only [getOrgList, noFiles, Bool.false_eq_true, if_false, ite_self,
        List.foldl_cons, List.foldl_nil]
      rw [if_pos hd]
    rw [h2, h1, collectOrg_append]
    simp
  simp only [hone]
  simp only [RunFetcher, getOrgList, hfile, hread, hc, hd, if_true, collect_foldl]
  simp

/-- C6, witness: "orgs.txt" lists acme, ghost and beta; the fetch for ghost
fails; the targets are those of acme followed by that of beta. -/
theorem per_org_isolation_witness :
    (RunFetcher { acmeCfg with orgname := "orgs.txt" } listFiles acmeFetchers).targets = some
      ["https://github.com/acme/api", "https://github.com/acme/web",
       "https://github.com/acme/docs", "https://github.com/beta/core"] ∧
    (RunFetcher { acmeCfg with orgname := "ghost" } noFiles acmeFetchers).targets = some [] :=
  ⟨per_org_isolation { acmeCfg with orgname := "orgs.txt" } listFiles acmeFetchers
      ["acme", "", "ghost", "beta"] rfl rfl (fun _ => rfl) rfl,
   by decide⟩

/-- C7, the code at the failing input: in `both` mode, when the
organization-owned repository list cannot be fetched but the members and
their repositories can, the GitHub listing still writes the member-owned
URLs, whereas the GitLab listing writes none of them and the download phase
of either provider collects no target at all. -/
theorem org_fetch_error_eval :
    (RunFetcher { acmeCfg with repoType := "both", download := false } noFiles orgDownFetchers).out =
      [(Sink.stdout, "Error fetching org repos: 403"),
       (Sink.stdout, "https://github.com/bob/dot"), (Sink.stdout, "https://github.com/eve/lab"),
       (Sink.stdout, "\x1b[33mTotal repositories: \x1b[32m0\x1b[0m"),
       (Sink.stdout, "\x1b[33mTotal member-owned repositories: \x1b[32m2\x1b[0m")] ∧
    (RunFetcher { acmeCfg with repoType := "both", download := false, provider := "gitlab" }
        noFiles orgDownFetchers).out =
      [(Sink.stdout, "Error fetching repos: 403"),
       (Sink.stdout, "\x1b[33mTotal repositories: \x1b[32m0\x1b[0m"),
       (Sink.stdout, "\x1b[33mTotal member-owned repositories: \x1b[32m0\x1b[0m")] ∧
    (RunFetcher { acmeCfg with repoType := "both" } noFiles orgDownFetchers).targets = some [] ∧
    (RunFetcher { acmeCfg with repoType := "both", provider := "gitlab" }
        noFiles orgDownFetchers).targets = some [] := by
  decide

/-! ## Requests and responses -/

/-- C8, counterexample: with the empty token the request of `apiGet` does carry
an Authorization header, of value "token ", and the request of `gitlabApiGet`
does carry a PRIVATE-TOKEN header, of empty value. -/
theorem empty_token_header_present :
    headerHas (apiRequest "" "https://api.github.com/orgs/acme/members").Header
      "Authorization" = true ∧
    headerGet (apiRequest "" "https://api.github.com/orgs/acme/members").Header
      "Authorization" = "token " ∧
    headerHas (gitlabRequest "" "https://gitlab.com/api/v4/groups/acme/members").Header
      "PRIVATE-TOKEN" = true ∧
    headerGet (gitlabRequest "" "https://gitlab.com/api/v4/groups/acme/members").Header
      "PRIVATE-TOKEN" = "" := by
  decide

/-- C8, amended. For every locator and every token, empty or not, the request
built by `apiGet` carries the Authorization header with value `token <token>`
and the request built by `gitlabApiGet` carries the PRIVATE-TOKEN header with
the token as value; and what either function returns is decided by the answer
of the transport to that one request. -/
theorem auth_header_always_set (token url : String) :
    (headerHas (apiRequest token url).Header "Authorization" = true ∧
      headerGet (apiRequest token url).Header "Authorization" = "token " ++ token) ∧
    (headerHas (gitlabRequest token url).Header "PRIVATE-TOKEN" = true ∧
      headerGet (gitlabRequest token url).Header "PRIVATE-TOKEN" = token) ∧
    (∀ net net1 : Net, net.urlError url = net1.urlError url →
      net.Do (apiRequest token url) = net1.Do (apiRequest token url) →
      apiGet net token url = apiGet net1 token url) ∧
    (∀ net net1 : Net, net.urlError url = net1.urlError url →
      net.Do (gitlabRequest token url) = net1.Do (gitlabRequest token url) →
      gitlabApiGet net token url = gitlabApiGet net1 token url) := by
  have hne : ("Authorization" : String) ≠ "Accept" := by decide
  refine ⟨⟨?_, ?_⟩, ⟨?_, ?_⟩, ?_, ?_⟩
  · simp [apiRequest, headerSet, headerHas, hne]
  · simp [apiRequest, headerSet, headerGet, hne]
  · simp [gitlabRequest, headerSet, headerHas]
  · simp [gitlabRequest, headerSet, headerGet]
  · intro net net1 h1 h2
    simp only [apiGet, h1, h2]
  · intro net net1 h1 h2
    simp only [gitlabApiGet, h1, h2]

theorem apiGet_withStatus (g : Int → Int) (net : Net) (token url : String) :
    apiGet (withStatus g net) token url = apiGet net token url := by
  simp only [apiGet, withStatus]
  cases net.urlError url with
  | some e => rfl
  | none =>
    cases net.Do (apiRequest token url) with
    | error e => rfl
    | ok resp => rfl

theorem gitlabApiGet_withStatus (g : Int → Int) (net : Net) (token url : String) :
    gitlabApiGet (withStatus g net) token url = gitlabApiGet net token url := by
  simp only [gitlabApiGet, withStatus]
  cases net.urlError url with
  | some e => rfl
  | none =>
    cases net.Do (gitlabRequest token url) with
    | error e => rfl
    | ok resp => rfl

/-- C9, counterexample: a server that answers 404 with the body `[]` makes
each of the six adapter operations return an empty list and no error. -/
theorem not_found_is_success :
    (fetchRepos notFoundNet pageCodec 1 "t" "acme").result = some (.ok []) ∧
    (fetchMembers notFoundNet pageCodec 1 "t" "acme").result = some (.ok []) ∧
    (fetchUserRepos notFoundNet pageCodec 1 "t" "bob").result = some (.ok []) ∧
    fetchGitLabRepos notFoundNet pageCodec "t" "acme" = .ok [] ∧
    fetchGitLabMembers notFoundNet pageCodec "t" "acme" = .ok [] ∧
    fetchGitLabUserRepos notFoundNet pageCodec "t" "bob" = .ok [] :=
  ⟨by decide, by decide, by decide, rfl, rfl, rfl⟩

/-- C9, amended. The adapters never look at the status code: each of the six
operations returns the same result when the status code of every response is
replaced by any other, so a response outside 200..299 is an error exactly
when the same response with status 200 is one. -/
theorem status_code_ignored (g : Int → Int) (net : Net) (codec : Codec) (fuel : Nat)
    (token name : String) :
    fetchRepos (withStatus g net) codec fuel token name = fetchRepos net codec fuel token name ∧
    fetchMembers (withStatus g net) codec fuel token name =
      fetchMembers net codec fuel token name ∧
    fetchUserRepos (withStatus g net) codec fuel token name =
      fetchUserRepos net codec fuel token name ∧
    fetchGitLabRepos (withStatus g net) codec token name =
      fetchGitLabRepos net codec token name ∧
    fetchGitLabMembers (withStatus g net) codec token name =
      fetchGitLabMembers net codec token name ∧
    fetchGitLabUserRepos (withStatus g net) codec token name =
      fetchGitLabUserRepos net codec token name := by
  have h : apiGet (withStatus g net) token = apiGet net token :=
    funext (apiGet_withStatus g net token)
  refine ⟨?_, ?_, ?_, ?_, ?_, ?_⟩
  · simp only [fetchRepos, h]
  · simp only [fetchMembers, h]
  · simp only [fetchUserRepos, h]
  · simp only [fetchGitLabRepos, gitlabApiGet_withStatus]
  · simp only [fetchGitLabMembers, gitlabApiGet_withStatus]
  · simp only [fetchGitLabUserRepos, gitlabApiGet_withStatus]

/-! ## The pagination loop revisits no locator only when it ends -/

theorem pageLoop_turn_some {α : Type} (get : String → Res apiResponse)
    (unmarshal : String → Except String (List α)) (n : Nat) (url nx : String)
    (acc page : List α) (h : turn get unmarshal url = some (nx, page)) :
    pageLoop get unmarshal (n + 1) url acc =
      { requests := url :: (pageLoop get unmarshal n nx (acc ++ page)).requests
        result := (pageLoop get unmarshal n nx (acc ++ page)).result } := by
  unfold turn at h
  by_cases hu : url = ""
  · simp [hu] at h
  · simp only [hu, if_false] at h
    cases hg : get url with
    | err e => simp [hg] at h
    | panic => simp [hg] at h
    | ok resp =>
      simp only [hg] at h
      cases hm : unmarshal resp.Body with
      | error e => simp [hm] at h
      | ok items =>
        simp only [hm, Option.some.injEq, Prod.mk.injEq] at h
        obtain ⟨h1, h2⟩ := h
        subst h1 h2
        simp [pageLoop, hu, hg, hm]

theorem pageLoop_turn_none {α : Type} (get : String → Res apiResponse)
    (unmarshal : String → Except String (List α)) (n : Nat) (url : String)
    (acc : List α) (h : turn get unmarshal url = none) :
    (pageLoop get unmarshal (n + 1) url acc).result ≠ none ∧
    (pageLoop get unmarshal (n + 1) url acc).requests.length ≤ 1 ∧
    (∀ m, pageLoop get unmarshal (m + 1) url acc = pageLoop get unmarshal (n + 1) url acc) := by
  unfold turn at h
  by_cases hu : url = ""
  · simp [pageLoop, hu]
  · simp only [hu, if_false] at h
    cases hg : get url with
    | err e => simp [pageLoop, hu, hg]
    | panic => simp [pageLoop, hu, hg]
    | ok resp =>
      simp only [hg] at h
      cases hm : unmarshal resp.Body with
      | error e => simp [pageLoop, hu, hg, hm]
      | ok items => simp [hm] at h

theorem pageLoop_zero_requests {α : Type} (get : String → Res apiResponse)
    (unmarshal : String → Except String (List α)) (url : String) (acc : List α) :
    (pageLoop get unmarshal 0 url acc).requests = [] := by
  by_cases hu : url = "" <;> simp [pageLoop, hu]

/-- A call that has returned returns the same, with the same requests, when
more iterations are allowed. -/
theorem pageLoop_mono {α : Type} (get : String → Res apiResponse)
    (unmarshal : String → Except String (List α)) :
    ∀ (n m : Nat) (url : String) (acc : List α), n ≤ m →
      (pageLoop get unmarshal n url acc).result ≠ none →
      pageLoop get unmarshal m url acc = pageLoop get unmarshal n url acc := by
  intro n
  induction n with
  | zero =>
    intro m url acc _ h
    by_cases hu : url = ""
    · cases m <;> simp [pageLoop, hu]
    · simp [pageLoop, hu] at h
  | succ n ih =>
    intro m url acc hnm h
    cases m with
    | zero => omega
    | succ m =>
      cases ht : turn get unmarshal url with
      | none => exact (pageLoop_turn_none get unmarshal n url acc ht).2.2 m
      | some p =>
        obtain ⟨nx, page⟩ := p
        rw [pageLoop_turn_some get unmarshal n url nx acc page ht] at h ⊢
        rw [pageLoop_turn_some get unmarshal m url nx acc page ht]
        rw [ih m nx (acc ++ page) (by omega) h]

/-- The requests and whether the call has returned do not depend on the
records accumulated so far. -/
theorem pageLoop_acc {α : Type} (get : String → Res apiResponse)
    (unmarshal : String → Except String (List α)) :
    ∀ (n : Nat) (url : String) (acc acc1 : List α),
      (pageLoop get unmarshal n url acc).requests = (pageLoop get unmarshal n url acc1).requests ∧
      ((pageLoop get unmarshal n url acc).result = none ↔
        (pageLoop get unmarshal n url acc1).result = none) := by
  intro n
  induction n with
  | zero =>
    intro url acc acc1
    by_cases hu : url = "" <;> simp [pageLoop, hu]
  | succ n ih =>
    intro url acc acc1
    cases ht : turn get unmarshal url with
    | none =>
      unfold turn at ht
      by_cases hu : url = ""
      · simp [pageLoop, hu]
      · simp only [hu, if_false] at ht
        cases hg : get url with
        | err e => simp [pageLoop, hu, hg]
        | panic => simp [pageLoop, hu, hg]
        | ok resp =>
          simp only [hg] at ht
          cases hm : unmarshal resp.Body with
          | error e => simp [pageLoop, hu, hg, hm]
          | ok items => simp [hm] at ht
    | some p =>
      obtain ⟨nx, page⟩ := p
      rw [pageLoop_turn_some get unmarshal n url nx acc page ht,
        pageLoop_turn_some get unmarshal n url nx acc1 page ht]
      have := ih nx (acc ++ page) (acc1 ++ page)
      simp [this.1, this.2]

/-- The requests made within fewer iterations are the first of those made
within more. -/
theorem pageLoop_requests_grow {α : Type} (get : String → Res apiResponse)
    (unmarshal : String → Except String (List α)) :
    ∀ (n m : Nat) (url : String) (acc : List α), n ≤ m →
      (pageLoop get unmarshal n url acc).requests <+:
        (pageLoop get unmarshal m url acc).requests := by
  intro n
  induction n with
  | zero =>
    intro m url acc _
    rw [pageLoop_zero_requests]
    exact List.nil_prefix
  | succ n ih =>
    intro m url acc hnm
    cases m with
    | zero => omega
    | succ m =>
      cases ht : turn get unmarshal url with
      | none =>
        rw [(pageLoop_turn_none get unmarshal n url acc ht).2.2 m]
      | some p =>
        obtain ⟨nx, page⟩ := p
        rw [pageLoop_turn_some get unmarshal n url nx acc page ht,
          pageLoop_turn_some get unmarshal m url nx acc page ht]
        exact (List.prefix_cons_inj url).2 (ih m nx (acc ++ page) (by omega))

/-- A locator among the requests is a point the loop passes through: from
there on the call is the call that starts at that locator. -/
theorem pageLoop_reach {α : Type} (get : String → Res apiResponse)
    (unmarshal : String → Except String (List α)) (u : String) :
    ∀ (n : Nat) (url : String) (acc : List α),
      u ∈ (pageLoop get unmarshal n url acc).requests →
      ∃ (k : Nat) (acc1 : List α), k ≤ n ∧
        (pageLoop get unmarshal n url acc).requests.length =
          k + (pageLoop get unmarshal (n - k) u acc1).requests.length ∧
        ((pageLoop get unmarshal n url acc).result = none ↔
          (pageLoop get unmarshal (n - k) u acc1).result = none) := by
  intro n
  induction n with
  | zero =>
    intro url acc h
    rw [pageLoop_zero_requests] at h
    simp at h
  | succ n ih =>
    intro url acc h
    cases ht : turn get unmarshal url with
    | none =>
      have hlen := (pageLoop_turn_none get unmarshal n url acc ht).2.1
      have hu : u = url := by
        unfold turn at ht
        by_cases hu : url = ""
        · simp [pageLoop, hu] at h
        · simp only [hu, if_false] at ht
          cases hg : get url with
          | err e => simpa [pageLoop, hu, hg] using h
          | panic => simpa [pageLoop, hu, hg] using h
          | ok resp =>
            simp only [hg] at ht
            cases hm : unmarshal resp.Body with
            | error e => simpa [pageLoop, hu, hg, hm] using h
            | ok items => simp [hm] at ht
      subst hu
      exact ⟨0, acc, by omega, by simp, by simp⟩
    | some p =>
      obtain ⟨nx, page⟩ := p
      rw [pageLoop_turn_some get unmarshal n url nx acc page ht] at h ⊢
      simp only [List.mem_cons] at h
      rcases h with h | h
      · subst h
        refine ⟨0, acc, by omega, ?_, ?_⟩
        · rw [Nat.sub_zero, pageLoop_turn_some get unmarshal n u nx acc page ht]
          simp
        · rw [Nat.sub_zero, pageLoop_turn_some get unmarshal n u nx acc page ht]
      · obtain ⟨k, acc1, hk, hl, hr⟩ := ih nx (acc ++ page) h
        refine ⟨k + 1, acc1, by omega, ?_, ?_⟩
        · simp only [List.length_cons, Nat.add_sub_add_right]
          omega
        · simpa only [Nat.add_sub_add_right] using hr

/-- A call that returns has requested no locator twice. -/
theorem pageLoop_nodup {α : Type} (get : String → Res apiResponse)
    (unmarshal : String → Except String (List α)) :
    ∀ (n : Nat) (url : String) (acc : List α),
      (pageLoop get unmarshal n url acc).result ≠ none →
      (pageLoop get unmarshal n url acc).requests.Nodup := by
  intro n
  induction n with
  | zero =>
    intro url acc _
    rw [pageLoop_zero_requests]
    exact List.nodup_nil
  | succ n ih =>
    intro url acc h
    cases ht : turn get unmarshal url with
    | none =>
      have hlen := (pageLoop_turn_none get unmarshal n url acc ht).2.1
      match hq : (pageLoop get unmarshal (n + 1) url acc).requests with
      | [] => exact List.nodup_nil
      | [x] => exact List.nodup_singleton x
      | x :: y :: rest => rw [hq] at hlen; simp at hlen
    | some p =>
      obtain ⟨nx, page⟩ := p
      have hfull := pageLoop_turn_some get unmarshal n url nx acc page ht
      rw [hfull] at h ⊢
      simp only at h
      refine List.nodup_cons.2 ⟨?_, ih nx (acc ++ page) h⟩
      intro hmem
      obtain ⟨k, acc1, hk, hl, hr⟩ := pageLoop_reach get unmarshal url n nx (acc ++ page) hmem
      have h1 : (pageLoop get unmarshal (n - k) url acc1).result ≠ none := fun hx => h (hr.2 hx)
      have h2 : (pageLoop get unmarshal (n - k) url acc).result ≠ none :=
        fun hx => h1 ((pageLoop_acc get unmarshal (n - k) url acc acc1).2.1 hx)
      have h3 := pageLoop_mono get unmarshal (n - k) (n + 1) url acc (by omega) h2
      have h4 := congrArg (fun f => f.requests.length) h3
      simp only [hfull, List.length_cons] at h4
      rw [(pageLoop_acc get unmarshal (n - k) url acc acc1).1] at h4
      omega

/-- Once some locator has been requested twice, the call never returns. -/
theorem pageLoop_revisit {α : Type} (get : String → Res apiResponse)
    (unmarshal : String → Except String (List α)) (n : Nat) (url : String) (acc : List α)
    (h : ¬ (pageLoop get unmarshal n url acc).requests.Nodup) (fuel : Nat) :
    (pageLoop get unmarshal fuel url acc).result = none := by
  by_contra hr
  have hnd := pageLoop_nodup get unmarshal fuel url acc hr
  rcases Nat.le_total n fuel with hle | hle
  · exact h (hnd.sublist (pageLoop_requests_grow get unmarshal n fuel url acc hle).sublist)
  · rw [pageLoop_mono get unmarshal fuel n url acc hle hr] at h
    exact h hnd

/-- C10, counterexample: when the response to the first locator names that
same locator as next, three iterations request it three times and the call has
not returned. -/
theorem self_link_revisited :
    (fetchRepos loopNet pageCodec 3 "t" "acme").requests =
      ["https://api.github.com/orgs/acme/repos?per_page=100",
       "https://api.github.com/orgs/acme/repos?per_page=100",
       "https://api.github.com/orgs/acme/repos?per_page=100"] ∧
    (fetchRepos loopNet pageCodec 3 "t" "acme").result = none := by
  decide

/-- Every locator requested is a non-empty one. -/
theorem pageLoop_requests_ne {α : Type} (get : String → Res apiResponse)
    (unmarshal : String → Except String (List α)) (u : String) :
    ∀ (n : Nat) (url : String) (acc : List α),
      u ∈ (pageLoop get unmarshal n url acc).requests → u ≠ "" := by
  intro n
  induction n with
  | zero =>
    intro url acc h
    rw [pageLoop_zero_requests] at h
    simp at h
  | succ n ih =>
    intro url acc h
    by_cases hu : url = ""
    · simp [pageLoop, hu] at h
    · cases hg : get url with
      | err e =>
        simp [pageLoop, hu, hg] at h
        rw [h]; exact hu
      | panic =>
        simp [pageLoop, hu, hg] at h
        rw [h]; exact hu
      | ok resp =>
        cases hm : unmarshal resp.Body with
        | error e =>
          simp [pageLoop, hu, hg, hm] at h
          rw [h]; exact hu
        | ok page =>
          simp only [pageLoop, hu, hg, hm, if_false, List.mem_cons] at h
          rcases h with h | h
          · rw [h]; exact hu
          · exact ih _ _ h

/-- The first request of a call is its starting locator. -/
theorem pageLoop_head {α : Type} (get : String → Res apiResponse)
    (unmarshal : String → Except String (List α)) (n : Nat) (url u : String) (acc : List α)
    (post : List String) (h : (pageLoop get unmarshal n url acc).requests = u :: post) :
    u = url := by
  cases n with
  | zero => rw [pageLoop_zero_requests] at h; simp at h
  | succ n =>
    by_cases hu : url = ""
    · simp [pageLoop, hu] at h
    · cases hg : get url with
      | err e => simp [pageLoop, hu, hg] at h; exact h.1.symm
      | panic => simp [pageLoop, hu, hg] at h; exact h.1.symm
      | ok resp =>
        cases hm : unmarshal resp.Body with
        | error e => simp [pageLoop, hu, hg, hm] at h; exact h.1.symm
        | ok page => simp [pageLoop, hu, hg, hm] at h; exact h.1.symm

/-- A call whose requests go through `u` after the requests `pre` is, from
there on, the call that starts at `u`. -/
theorem pageLoop_path {α : Type} (get : String → Res apiResponse)
    (unmarshal : String → Except String (List α)) (u : String) (post : List String) :
    ∀ (pre : List String) (n : Nat) (url : String) (acc : List α),
      (pageLoop get unmarshal n url acc).requests = pre ++ u :: post →
      ∃ acc1 : List α, ∀ m : Nat,
        (pageLoop get unmarshal (pre.length + m) url acc).requests =
          pre ++ (pageLoop get unmarshal m u acc1).requests ∧
        (pageLoop get unmarshal (pre.length + m) url acc).result =
          (pageLoop get unmarshal m u acc1).result := by
  intro pre
  induction pre with
  | nil =>
    intro n url acc h
    have hu : u = url := pageLoop_head get unmarshal n url u acc post (by simpa using h)
    subst hu
    exact ⟨acc, fun m => by simp⟩
  | cons p pre ih =>
    intro n url acc h
    cases n with
    | zero => rw [pageLoop_zero_requests] at h; simp at h
    | succ n =>
      cases ht : turn get unmarshal url with
      | none =>
        have hlen := (pageLoop_turn_none get unmarshal n url acc ht).2.1
        rw [h] at hlen
        simp at hlen
      | some q =>
        obtain ⟨nx, page⟩ := q
        rw [pageLoop_turn_some get unmarshal n url nx acc page ht] at h
        simp only [List.cons_append, List.cons.injEq] at h
        obtain ⟨hp, hrest⟩ := h
        obtain ⟨acc1, hacc⟩ := ih n nx (acc ++ page) hrest
        refine ⟨acc1, fun m => ?_⟩
        have hm : (p :: pre).length + m = (pre.length + m) + 1 := by
          simp only [List.length_cons]; omega
        rw [hm, pageLoop_turn_some get unmarshal (pre.length + m) url nx acc page ht]
        simp only [(hacc m).1, (hacc m).2, List.cons_append, hp, and_self]

theorem pageLoop_one_requests {α : Type} (get : String → Res apiResponse)
    (unmarshal : String → Except String (List α)) (v : String) (acc : List α) (hv : v ≠ "") :
    (pageLoop get unmarshal 1 v acc).requests = [v] ∧
    (∀ resp e, get v = .ok resp → unmarshal resp.Body = .error e →
      (pageLoop get unmarshal 1 v acc).result = some (.err e)) := by
  cases hg : get v with
  | err e => simp [pageLoop, hv, hg]
  | panic => simp [pageLoop, hv, hg]
  | ok resp =>
    cases hm : unmarshal resp.Body with
    | error e =>
      refine ⟨by simp [pageLoop, hv, hg, hm], ?_⟩
      intro resp1 e1 h1 h2
      simp only [Res.ok.injEq] at h1
      subst h1
      rw [hm] at h2
      simp only [Except.error.injEq] at h2
      subst h2
      simp [pageLoop, hv, hg, hm]
    | ok page =>
      refine ⟨?_, ?_⟩
      · by_cases hn : resp.Next = "" <;> simp [pageLoop, hv, hg, hm, hn]
      · intro resp1 e1 h1 h2
        simp only [Res.ok.injEq] at h1
        subst h1
        rw [hm] at h2
        simp at h2

/-- What the loop does at a locator `u` it reaches after the requests `pre`,
when the response to `u` is read. If the body decodes and the next locator it
names is `u` itself or one of `pre`, that locator is requested next, a second
time, and the call never returns. If the body does not decode, the call
returns the decoding error. -/
theorem pageLoop_cycle {α : Type} (get : String → Res apiResponse)
    (unmarshal : String → Except String (List α)) (n : Nat) (url u : String) (acc : List α)
    (pre post : List String) (resp : apiResponse)
    (hreq : (pageLoop get unmarshal n url acc).requests = pre ++ u :: post)
    (hget : get u = .ok resp) :
    (∀ page, unmarshal resp.Body = .ok page → resp.Next ∈ pre ++ [u] →
      (pageLoop get unmarshal (pre.length + 2) url acc).requests = pre ++ [u, resp.Next] ∧
      ∀ fuel, (pageLoop get unmarshal fuel url acc).result = none) ∧
    (∀ e, unmarshal resp.Body = .error e → ∀ fuel, pre.length + 1 ≤ fuel →
      (pageLoop get unmarshal fuel url acc).result = some (.err e)) := by
  have hmem : ∀ x ∈ pre ++ [u], x ≠ "" := by
    intro x hx
    apply pageLoop_requests_ne get unmarshal x n url acc
    rw [hreq]
    simp only [List.mem_append, List.mem_singleton, List.mem_cons] at hx ⊢
    tauto
  have hu : u ≠ "" := hmem u (by simp)
  obtain ⟨acc1, hacc⟩ := pageLoop_path get unmarshal u post pre n url acc hreq
  refine ⟨?_, ?_⟩
  · intro page hdec hnext
    have ht : turn get unmarshal u = some (resp.Next, page) := by
      simp [turn, hu, hget, hdec]
    have h2 : (pageLoop get unmarshal (pre.length + 2) url acc).requests =
        pre ++ [u, resp.Next] := by
      rw [(hacc 2).1, pageLoop_turn_some get unmarshal 1 u resp.Next acc1 page ht]
      simp only [(pageLoop_one_requests get unmarshal resp.Next (acc1 ++ page)
        (hmem _ hnext)).1]
    refine ⟨h2, ?_⟩
    apply pageLoop_revisit get unmarshal (pre.length + 2) url acc
    rw [h2]
    intro hnd
    have hsplit : pre ++ [u, resp.Next] = (pre ++ [u]) ++ [resp.Next] := by simp
    rw [hsplit, List.nodup_append] at hnd
    exact hnd.2.2 hnext (by simp)
  · intro e hdec fuel hfuel
    have h1 : (pageLoop get unmarshal (pre.length + 1) url acc).result = some (.err e) := by
      rw [(hacc 1).2]
      exact (pageLoop_one_requests get unmarshal u acc1 hu).2 resp e hget hdec
    rw [pageLoop_mono get unmarshal (pre.length + 1) fuel url acc hfuel (by simp [h1]), h1]

/-- C10, amended. The pagination loop keeps no record of the locators it has
requested. For every page source and each of `fetchRepos`, `fetchMembers` and
`fetchUserRepos`: a call that returns has requested no locator twice; and when
the call reaches a locator `u` after the requests `pre` and the response to
`u` has a body that decodes and names as next `u` itself or one of `pre`,
that locator is requested again right after `u` and the call does not return
within any number of iterations. When the body of that response does not
decode, the call returns the decoding error instead. -/
theorem back_link_never_returns (net : Net) (codec : Codec) (token name : String) :
    ((∀ fuel, (fetchRepos net codec fuel token name).result ≠ none →
        (fetchRepos net codec fuel token name).requests.Nodup) ∧
      ∀ (n : Nat) (pre post : List String) (u : String) (resp : apiResponse),
        (fetchRepos net codec n token name).requests = pre ++ u :: post →
        apiGet net token u = .ok resp →
        (∀ page, codec.repos resp.Body = .ok page → resp.Next ∈ pre ++ [u] →
          (fetchRepos net codec (pre.length + 2) token name).requests =
            pre ++ [u, resp.Next] ∧
          ∀ fuel, (fetchRepos net codec fuel token name).result = none) ∧
        (∀ e, codec.repos resp.Body = .error e → ∀ fuel, pre.length + 1 ≤ fuel →
          (fetchRepos net codec fuel token name).result = some (.err e))) ∧
    ((∀ fuel, (fetchMembers net codec fuel token name).result ≠ none →
        (fetchMembers net codec fuel token name).requests.Nodup) ∧
      ∀ (n : Nat) (pre post : List String) (u : String) (resp : apiResponse),
        (fetchMembers net codec n token name).requests = pre ++ u :: post →
        apiGet net token u = .ok resp →
        (∀ page, codec.members resp.Body = .ok page → resp.Next ∈ pre ++ [u] →
          (fetchMembers net codec (pre.length + 2) token name).requests =
            pre ++ [u, resp.Next] ∧
          ∀ fuel, (fetchMembers net codec fuel token name).result = none) ∧
        (∀ e, codec.members resp.Body = .error e → ∀ fuel, pre.length + 1 ≤ fuel →
          (fetchMembers net codec fuel token name).result = some (.err e))) ∧
    ((∀ fuel, (fetchUserRepos net codec fuel token name).result ≠ none →
        (fetchUserRepos net codec fuel token name).requests.Nodup) ∧
      ∀ (n : Nat) (pre post : List String) (u : String) (resp : apiResponse),
        (fetchUserRepos net codec n token name).requests = pre ++ u :: post →
        apiGet net token u = .ok resp →
        (∀ page, codec.repos resp.Body = .ok page → resp.Next ∈ pre ++ [u] →
          (fetchUserRepos net codec (pre.length + 2) token name).requests =
            pre ++ [u, resp.Next] ∧
          ∀ fuel, (fetchUserRepos net codec fuel token name).result = none) ∧
        (∀ e, codec.repos resp.Body = .error e → ∀ fuel, pre.length + 1 ≤ fuel →
          (fetchUserRepos net codec fuel token name).result = some (.err e))) :=
  ⟨⟨fun fuel => pageLoop_nodup _ _ fuel _ _,
      fun n pre post u resp hreq hget => pageLoop_cycle _ _ n _ u [] pre post resp hreq hget⟩,
   ⟨fun fuel => pageLoop_nodup _ _ fuel _ _,
      fun n pre post u resp hreq hget => pageLoop_cycle _ _ n _ u [] pre post resp hreq hget⟩,
   ⟨fun fuel => pageLoop_nodup _ _ fuel _ _,
      fun n pre post u resp hreq hget => pageLoop_cycle _ _ n _ u [] pre post resp hreq hget⟩⟩

/-- C10, witness: the two-page server is read without a repeated request; on
the server whose second page names the first locator as next, that locator is
the third request and the call is still running after a thousand iterations;
on the server that names the current locator as next but whose body does not
decode, the call returns the decoding error. -/
theorem back_link_never_returns_witness :
    (fetchRepos twoPageNet pageCodec 2 "t" "acme").requests.Nodup ∧
    (fetchRepos cycleNet pageCodec 3 "t" "acme").requests =
      ["https://api.github.com/orgs/acme/repos?per_page=100", "https://api.github.com/page2",
       "https://api.github.com/orgs/acme/repos?per_page=100"] ∧
    (fetchRepos cycleNet pageCodec 1000 "t" "acme").result = none ∧
    (fetchRepos loopNet gitlabCodec 1000 "t" "acme").result =
      some (.err "invalid character") :=
  have hback := ((back_link_never_returns cycleNet pageCodec "t" "acme").1.2 2
    ["https://api.github.com/orgs/acme/repos?per_page=100"] [] "https://api.github.com/page2"
    { Body := "p2", Next := "https://api.github.com/orgs/acme/repos?per_page=100" }
    (by decide) (by decide)).1
    [⟨"docs", false, 50, "acme"⟩, ⟨"old", true, 5, "acme"⟩] rfl (by decide)
  ⟨(back_link_never_returns twoPageNet pageCodec "t" "acme").1.1 2 (by decide),
   hback.1, hback.2 1000,
   ((back_link_never_returns loopNet gitlabCodec "t" "acme").1.2 1 [] []
    "https://api.github.com/orgs/acme/repos?per_page=100"
    { Body := "[]", Next := "https://api.github.com/orgs/acme/repos?per_page=100" }
    (by decide) (by decide)).2 "invalid character" rfl 1000 (by decide)⟩

/-! ## The number of workers -/

/-- The workers started so far are as many as the loop counter says, and
`max(parallel, 0)` once the loop that starts them is left. -/
theorem step_workers_count (P : PoolCfg) (s s1 : Pool) (a : Actor)
    (hinv : match s.pc with
      | .spawning w => s.workers.length = w ∧ w ≤ P.parallel.toNat
      | _ => s.workers.length = P.parallel.toNat)
    (h : step P s a = some s1) :
    match s1.pc with
    | .spawning w => s1.workers.length = w ∧ w ≤ P.parallel.toNat
    | _ => s1.workers.length = P.parallel.toNat := by
  unfold step at h
  split at h
  · simp at h
  · cases a with
    | main =>
      simp only [stepMain] at h
      split at h
      · rename_i w hpc
        simp only [hpc] at hinv
        split at h
        · simp at h; subst h
          simp [hinv.1]
          omega
        · simp at h; subst h
          simp
          omega
      · rename_i url rest hpc
        simp only [hpc] at hinv
        split at h
        · simp at h; subst h
          simpa using hinv
        · simp at h
      · rename_i hpc
        simp only [hpc] at hinv
        simp at h; subst h
        simpa using hinv
      · rename_i i hpc
        simp only [hpc] at hinv
        split at h
        · split at h
          · simp at h; subst h
            simpa using hinv
          · simp at h
        · simp at h; subst h
          simpa using hinv
      · simp at h
    | worker k =>
      have hw : s1.pc = s.pc ∧ s1.workers.length = s.workers.length := by
        simp only [stepWorker] at h
        split at h
        · simp at h
        · split at h
          · simp at h; subst h; simp
          · split at h
            · simp at h; subst h; simp
            · simp at h
        · simp at h; subst h; simp
        · split at h
          · simp at h; subst h; simp
          · simp at h
        · simp at h
      rw [hw.1, hw.2]
      exact hinv

theorem exec_workers_count (P : PoolCfg) :
    ∀ (sched : List Actor) (s s1 : Pool),
      (match s.pc with
        | .spawning w => s.workers.length = w ∧ w ≤ P.parallel.toNat
        | _ => s.workers.length = P.parallel.toNat) →
      exec P s sched = some s1 →
      match s1.pc with
      | .spawning w => s1.workers.length = w ∧ w ≤ P.parallel.toNat
      | _ => s1.workers.length = P.parallel.toNat := by
  intro sched
  induction sched with
  | nil => intro s s1 hi h; simp [exec] at h; subst h; exact hi
  | cons a rest ih =>
    intro s s1 hi h
    simp only [exec] at h
    cases hs : step P s a with
    | none => simp [hs] at h
    | some s2 =>
      simp only [hs] at h
      exact ih s2 s1 (step_workers_count P s s2 a hi hs) h

/-- Without a worker nothing is ever received from `results`: the main
goroutine stays in front of its first receive. -/
theorem step_no_worker (P : PoolCfg) (hp : P.parallel ≤ 0) (hL : P.repoURLs ≠ [])
    (s s1 : Pool) (a : Actor)
    (hinv : s.workers = [] ∧ s.results = [] ∧ s.printed = [] ∧ s.pc ≠ .done ∧
      ∀ i, s.pc = .draining i → i = 0)
    (h : step P s a = some s1) :
    s1.workers = [] ∧ s1.results = [] ∧ s1.printed = [] ∧ s1.pc ≠ .done ∧
      ∀ i, s1.pc = .draining i → i = 0 := by
  obtain ⟨hw, hr, hpr, hd, hi⟩ := hinv
  have hlen : 0 < P.repoURLs.length := List.length_pos.2 hL
  unfold step at h
  split at h
  · simp at h
  · cases a with
    | main =>
      simp only [stepMain] at h
      split at h
      · rename_i w hpc
        split at h
        · rename_i hlt
          omega
        · simp at h; subst h
          simp [hw, hr, hpr]
      · rename_i url rest hpc
        split at h
        · simp at h; subst h
          simp [hw, hr, hpr]
        · simp at h
      · rename_i hpc
        simp at h; subst h
        simp [hw, hr, hpr]
      · rename_i i hpc
        have h0 : i = 0 := hi i hpc
        subst h0
        simp [hlen, hr] at h
      · simp at h
    | worker k =>
      simp [stepWorker, hw] at h

theorem exec_no_worker (P : PoolCfg) (hp : P.parallel ≤ 0) (hL : P.repoURLs ≠ []) :
    ∀ (sched : List Actor) (s s1 : Pool),
      (s.workers = [] ∧ s.results = [] ∧ s.printed = [] ∧ s.pc ≠ .done ∧
        ∀ i, s.pc = .draining i → i = 0) →
      exec P s sched = some s1 →
      s1.workers = [] ∧ s1.results = [] ∧ s1.printed = [] ∧ s1.pc ≠ .done ∧
        ∀ i, s1.pc = .draining i → i = 0 := by
  intro sched
  induction sched with
  | nil => intro s s1 hi h; simp [exec] at h; subst h; exact hi
  | cons a rest ih =>
    intro s s1 hi h
    simp only [exec] at h
    cases hs : step P s a with
    | none => simp [hs] at h
    | some s2 =>
      simp only [hs] at h
      exact ih s2 s1 (step_no_worker P hp hL s s2 a hi hs) h

/-- C11, counterexample: with `parallel = 0` and one target the main goroutine
reaches the drain loop with no worker started, the job still buffered in
`jobs`, and neither it nor any worker can step: the loop that reads
`len(repoURLs)` outcomes does not complete. -/
theorem zero_parallel_stuck :
    exec zeroPool Pool.init [.main, .main, .main] = some zeroStuck ∧
    zeroStuck.workers.length = 0 ∧
    step zeroPool zeroStuck .main = none ∧
    step zeroPool zeroStuck (.worker 0) = none := by
  decide

/-- C11, amended. The number of workers the pool starts is `max(parallel, 0)`:
along every run at most that many are started, and exactly that many once the
loop that starts them is left. With `parallel >= 1` every run can be continued
until `RunFetcher` returns; with `parallel <= 0` and a target list that is not
empty no worker is ever started, nothing is printed and `RunFetcher` never
returns. -/
theorem workers_started (P : PoolCfg) (sched : List Actor) (s : Pool)
    (h : exec P Pool.init sched = some s) :
    s.workers.length ≤ P.parallel.toNat ∧
    ((∀ w, s.pc ≠ .spawning w) → s.workers.length = P.parallel.toNat) ∧
    (1 ≤ P.parallel → ∃ more s1, exec P s more = some s1 ∧ s1.pc = .done) ∧
    (P.parallel ≤ 0 → P.repoURLs ≠ [] →
      s.workers = [] ∧ s.printed = [] ∧ s.pc ≠ .done) := by
  have hc := exec_workers_count P sched Pool.init s (by simp [Pool.init]) h
  refine ⟨?_, ?_, ?_, ?_⟩
  · cases hpc : s.pc <;> simp only [hpc] at hc <;> omega
  · intro hns
    cases hpc : s.pc with
    | spawning w => exact absurd hpc (hns w)
    | sending rest => simpa only [hpc] using hc
    | draining i => simpa only [hpc] using hc
    | done => simpa only [hpc] using hc
  · intro hN
    exact can_finish P hN _ s (exec_inv P sched Pool.init s (init_inv P) h) (le_refl _)
  · intro hp hL
    have := exec_no_worker P hp hL sched Pool.init s (by simp [Pool.init]) h
    exact ⟨this.1, this.2.2.1, this.2.2.2.1⟩

/-- C11, witness: with `--parallel 0` and one target, after the three steps
the main goroutine can take there is no worker, nothing printed, and
`RunFetcher` has not returned. -/
theorem workers_started_witness :
    exec zeroPool Pool.init [.main, .main, .main] = some zeroStuck ∧
    zeroStuck.workers = [] ∧ zeroStuck.printed = [] ∧ zeroStuck.pc ≠ .done :=
  have hrun : exec zeroPool Pool.init [.main, .main, .main] = some zeroStuck := by decide
  ⟨hrun, (workers_started zeroPool [.main, .main, .main] zeroStuck hrun).2.2.2
    (by decide) (by decide)⟩

/-! ## A malformed Link header -/

/-- C15, the code at the failing input: on the headers `rel=` and `<a>rel=`
the slice `s[i+5 : len(s)-1]` is out of bounds (5 > 3 and 8 > 6), so
`splitLinks` panics, and so does `apiGet` and with it `fetchRepos` on a
response that carries such a header. -/
theorem split_links_panics :
    splitLinks "rel=" = none ∧
    splitLinks "<a>rel=" = none ∧
    slice "rel=".toList 5 3 = none ∧
    apiGet brokenLinkNet "t" "https://api.github.com/orgs/acme/repos?per_page=100" = .panic ∧
    (fetchRepos brokenLinkNet pageCodec 1 "t" "acme").result = some .panic := by
  decide

/-! ## The max-size flag -/

theorem appendURLs_map {ρ : Type} (cfg : Config) (name : ρ → String) (fork : ρ → Bool)
    (host owner : String) (f : ρ → ρ) (hn : ∀ r, name (f r) = name r)
    (hf : ∀ r, fork (f r) = fork r) (repos : List ρ) (d : Dl) :
    appendURLs cfg name fork host owner (repos.map f) d =
      appendURLs cfg name fork host owner repos d := by
  unfold appendURLs
  induction repos generalizing d with
  | nil => rfl
  | cons r rs ih => simp only [List.map_cons, List.foldl_cons, hn, hf, ih]

theorem collectMembers_map {ρ : Type} (cfg : Config) (name : ρ → String) (fork : ρ → Bool)
    (host : String) (fetchUser : String → Except String (List ρ)) (f : ρ → ρ)
    (hn : ∀ r, name (f r) = name r) (hf : ∀ r, fork (f r) = fork r)
    (members : List String) (d : Dl) :
    collectMembers cfg name fork host (fun m => (fetchUser m).map (fun l => l.map f)) members d =
      collectMembers cfg name fork host fetchUser members d := by
  unfold collectMembers
  induction members generalizing d with
  | nil => rfl
  | cons m ms ih =>
    simp only [List.foldl_cons]
    cases hm : fetchUser m with
    | error e => simpa [Except.map, hm] using ih _
    | ok repos => simpa [Except.map, hm, appendURLs_map cfg name fork host m f hn hf] using ih _

/-- The targets an organization contributes do not depend on the sizes of the
repositories fetched. -/
theorem collectOrg_resized (cfg : Config) (F : Fetchers) (g : Int → Int) (d : Dl)
    (org : String) : collectOrg cfg (resized g F) d org = collectOrg cfg F d org := by
  have hm : githubMembers cfg (resized g F) org = githubMembers cfg F org := rfl
  have hok : ∀ {α β : Type} (f : α → β) (a : α),
      Except.map f (Except.ok a : Except String α) = Except.ok (f a) := fun _ _ => rfl
  have herr : ∀ {α β : Type} (f : α → β) (e : String),
      Except.map f (Except.error e : Except String α) = Except.error e := fun _ _ => rfl
  unfold collectOrg
  split
  · simp only [hm]
    have h1 : (resized g F).fetchRepos cfg.token org =
        (F.fetchRepos cfg.token org).map (fun l => l.map (fun r => { r with Size := g r.Size })) :=
      rfl
    have h2 : (resized g F).fetchUserRepos cfg.token = fun m =>
        (F.fetchUserRepos cfg.token m).map
          (fun l => l.map (fun r => { r with Size := g r.Size })) := rfl
    rw [h1, h2]
    cases F.fetchRepos cfg.token org with
    | error e => rw [herr]
    | ok repos =>
      rw [hok]
      simp only []
      rw [appendURLs_map cfg Repo.Name Repo.Fork _ _ (fun r => { r with Size := g r.Size })
        (fun _ => rfl) (fun _ => rfl)]
      split
      · cases githubMembers cfg F org with
        | error e => rfl
        | ok members =>
          simp only []
          rw [collectMembers_map cfg Repo.Name Repo.Fork _ _
            (fun r => { r with Size := g r.Size }) (fun _ => rfl) (fun _ => rfl)]
      · rfl
  · split
    · have h1 : (resized g F).fetchGitLabRepos cfg.token org =
          (F.fetchGitLabRepos cfg.token org).map
            (fun l => l.map (fun r => { r with Size := g r.Size })) := rfl
      have h2 : (resized g F).fetchGitLabUserRepos cfg.token = fun m =>
          (F.fetchGitLabUserRepos cfg.token m).map
            (fun l => l.map (fun r => { r with Size := g r.Size })) := rfl
      have h3 : (resized g F).fetchGitLabMembers = F.fetchGitLabMembers := rfl
      rw [h1, h2, h3]
      cases F.fetchGitLabRepos cfg.token org with
      | error e => rw [herr]
      | ok repos =>
        rw [hok]
        simp only []
        rw [appendURLs_map cfg GitLabRepo.Name GitLabRepo.Fork _ _
          (fun r => { r with Size := g r.Size }) (fun _ => rfl) (fun _ => rfl)]
        split
        · cases selectMembers cfg (fun _ =>
              (F.fetchGitLabMembers cfg.token org).map
                (fun l => l.map GitLabMember.Username)) with
          | error e => rfl
          | ok members =>
            simp only []
            rw [collectMembers_map cfg GitLabRepo.Name GitLabRepo.Fork _ _
              (fun r => { r with Size := g r.Size }) (fun _ => rfl) (fun _ => rfl)]
        · rfl
    · rfl

/-- C12. The max-size flag is not enforced: for every two values of it,
`RunFetcher` writes the same lines, builds the same clone target list and runs
the same worker pool on it; and the target list is the same whatever the sizes
of the fetched repositories are. -/
theorem max_size_not_enforced (cfg : Config) (fs : Files) (F : Fetchers) (git : Git)
    (m1 m2 : Int) (g : Int → Int) :
    RunFetcher { cfg with maxSizeMB := m1 } fs F = RunFetcher { cfg with maxSizeMB := m2 } fs F ∧
    poolOf { cfg with maxSizeMB := m1 } git (RunFetcher { cfg with maxSizeMB := m1 } fs F) =
      poolOf { cfg with maxSizeMB := m2 } git (RunFetcher { cfg with maxSizeMB := m2 } fs F) ∧
    (RunFetcher { cfg with maxSizeMB := m1 } fs (resized g F)).targets =
      (RunFetcher { cfg with maxSizeMB := m2 } fs F).targets := by
  have h1 : ∀ F1 : Fetchers,
      RunFetcher { cfg with maxSizeMB := m1 } fs F1 = RunFetcher { cfg with maxSizeMB := m2 } fs F1 :=
    fun _ => rfl
  refine ⟨h1 F, ?_, ?_⟩
  · rw [h1 F]
    rfl
  · rw [h1 (resized g F)]
    generalize ({ cfg with maxSizeMB := m2 } : Config) = c
    unfold RunFetcher
    cases getOrgList fs c.orgname with
    | error e => rfl
    | ok orgs =>
      simp only []
      cases (if c.output ≠ "" then fs.create c.output else none) with
      | some e => rfl
      | none =>
        simp only []
        by_cases hd : c.download = true
        · simp only [hd, if_true, collect_foldl, collectOrg_resized]
        · have hd1 : c.download = false := by simpa using hd
          simp only [hd1, Bool.false_eq_true, if_false]

/-- C12, example: with `--max-size 1` a repository of 10^9 KB is a clone
target all the same, as it is with the default of 250. -/
theorem max_size_not_enforced_witness :
    (RunFetcher { acmeCfg with maxSizeMB := 1 } noFiles hugeFetchers).targets =
      some ["https://github.com/acme/huge"] ∧
    (RunFetcher { acmeCfg with maxSizeMB := 1 } noFiles (resized (fun _ => 0) hugeFetchers)).targets =
      some ["https://github.com/acme/huge"] :=
  have h := max_size_not_enforced acmeCfg noFiles hugeFetchers demoGit 1 250 (fun _ => 0)
  have h250 : (RunFetcher { acmeCfg with maxSizeMB := 250 } noFiles hugeFetchers).targets =
      some ["https://github.com/acme/huge"] := by decide
  ⟨(congrArg Result.targets h.1).trans h250, h.2.2.trans h250⟩

/-! ## GitLab: one request, one page -/

theorem gitlabApiGetRun_value (net : Net) (token url : String) :
    (gitlabApiGetRun net token url).2 = gitlabApiGet net token url ∧
    (gitlabApiGetRun net token url).1.length ≤ 1 := by
  unfold gitlabApiGetRun gitlabApiGet
  cases net.urlError url with
  | some e => simp
  | none =>
    cases net.Do (gitlabRequest token url) with
    | error e => simp
    | ok resp => simp

theorem gitlabApiGetRun_ok (net : Net) (token url : String) (resp : Response) (body : String)
    (hu : net.urlError url = none) (hd : net.Do (gitlabRequest token url) = .ok resp)
    (hb : resp.Body = .ok body) :
    gitlabApiGetRun net token url = ([url], .ok body) := by
  simp [gitlabApiGetRun, hu, hd, hb]

/-- C13. Each GitLab fetch passes at most one locator to the transport and
returns what the untraced function returns. When that one request is answered
with a body that decodes, the fetch has made exactly that one request and
returns exactly the decoded records, in their order and without error,
whatever the headers of the response say about further pages and whatever the
server would answer to any other request. -/
theorem gitlab_single_page (net : Net) (codec : Codec) (token name : String) :
    ((fetchGitLabReposRun net codec token name).requests.length ≤ 1 ∧
      (fetchGitLabReposRun net codec token name).result =
        some (resOf (fetchGitLabRepos net codec token name)) ∧
      ∀ (resp : Response) (body : String) (items : List GitLabRepo),
        net.urlError ("https://gitlab.com/api/v4/groups/" ++ name ++ "/projects?per_page=100") =
          none →
        net.Do (gitlabRequest token
          ("https://gitlab.com/api/v4/groups/" ++ name ++ "/projects?per_page=100")) = .ok resp →
        resp.Body = .ok body → codec.gitlabRepos body = .ok items →
        (fetchGitLabReposRun net codec token name).requests =
          ["https://gitlab.com/api/v4/groups/" ++ name ++ "/projects?per_page=100"] ∧
        (fetchGitLabReposRun net codec token name).result = some (.ok items) ∧
        fetchGitLabRepos net codec token name = .ok items) ∧
    ((fetchGitLabUserReposRun net codec token name).requests.length ≤ 1 ∧
      (fetchGitLabUserReposRun net codec token name).result =
        some (resOf (fetchGitLabUserRepos net codec token name)) ∧
      ∀ (resp : Response) (body : String) (items : List GitLabRepo),
        net.urlError ("https://gitlab.com/api/v4/users/" ++ name ++ "/projects?per_page=100") =
          none →
        net.Do (gitlabRequest token
          ("https://gitlab.com/api/v4/users/" ++ name ++ "/projects?per_page=100")) = .ok resp →
        resp.Body = .ok body → codec.gitlabRepos body = .ok items →
        (fetchGitLabUserReposRun net codec token name).requests =
          ["https://gitlab.com/api/v4/users/" ++ name ++ "/projects?per_page=100"] ∧
        (fetchGitLabUserReposRun net codec token name).result = some (.ok items) ∧
        fetchGitLabUserRepos net codec token name = .ok items) ∧
    ((fetchGitLabMembersRun net codec token name).requests.length ≤ 1 ∧
      (fetchGitLabMembersRun net codec token name).result =
        some (resOf (fetchGitLabMembers net codec token name)) ∧
      ∀ (resp : Response) (body : String) (items : List GitLabMember),
        net.urlError ("https://gitlab.com/api/v4/groups/" ++ name ++ "/members") = none →
        net.Do (gitlabRequest token
          ("https://gitlab.com/api/v4/groups/" ++ name ++ "/members")) = .ok resp →
        resp.Body = .ok body → codec.gitlabMembers body = .ok items →
        (fetchGitLabMembersRun net codec token name).requests =
          ["https://gitlab.com/api/v4/groups/" ++ name ++ "/members"] ∧
        (fetchGitLabMembersRun net codec token name).result = some (.ok items) ∧
        fetchGitLabMembers net codec token name = .ok items) := by
  refine ⟨⟨?_, ?_, ?_⟩, ⟨?_, ?_, ?_⟩, ⟨?_, ?_, ?_⟩⟩
  · have h := gitlabApiGetRun_value net token
      ("https://gitlab.com/api/v4/groups/" ++ name ++ "/projects?per_page=100")
    unfold fetchGitLabReposRun
    split
    · simpa [*] using h.2
    · split <;> simpa [*] using h.2
  · have h := gitlabApiGetRun_value net token
      ("https://gitlab.com/api/v4/groups/" ++ name ++ "/projects?per_page=100")
    unfold fetchGitLabReposRun fetchGitLabRepos
    rw [← h.1]
    split
    · simp [*, resOf]
    · split <;> simp [*, resOf]
  · intro resp body items hu hd hb hc
    have h := gitlabApiGetRun_ok net token _ resp body hu hd hb
    simp [fetchGitLabReposRun, fetchGitLabRepos, gitlabApiGet, h, hu, hd, hb, hc]
  · have h := gitlabApiGetRun_value net token
      ("https://gitlab.com/api/v4/users/" ++ name ++ "/projects?per_page=100")
    unfold fetchGitLabUserReposRun
    split
    · simpa [*] using h.2
    · split <;> simpa [*] using h.2
  · have h := gitlabApiGetRun_value net token
      ("https://gitlab.com/api/v4/users/" ++ name ++ "/projects?per_page=100")
    unfold fetchGitLabUserReposRun fetchGitLabUserRepos
    rw [← h.1]
    split
    · simp [*, resOf]
    · split <;> simp [*, resOf]
  · intro resp body items hu hd hb hc
    have h := gitlabApiGetRun_ok net token _ resp body hu hd hb
    simp [fetchGitLabUserReposRun, fetchGitLabUserRepos, gitlabApiGet, h, hu, hd, hb, hc]
  · have h := gitlabApiGetRun_value net token
      ("https://gitlab.com/api/v4/groups/" ++ name ++ "/members")
    unfold fetchGitLabMembersRun
    split
    · simpa [*] using h.2
    · split <;> simpa [*] using h.2
  · have h := gitlabApiGetRun_value net token
      ("https://gitlab.com/api/v4/groups/" ++ name ++ "/members")
    unfold fetchGitLabMembersRun fetchGitLabMembers
    rw [← h.1]
    split
    · simp [*, resOf]
    · split <;> simp [*, resOf]
  · intro resp body items hu hd hb hc
    have h := gitlabApiGetRun_ok net token _ resp body hu hd hb
    simp [fetchGitLabMembersRun, fetchGitLabMembers, gitlabApiGet, h, hu, hd, hb, hc]

/-- C13, witness: the server holds three projects and three members, two to
a page, and announces a second page; each fetch makes its one request and
returns the two records of the first page, without error. -/
theorem gitlab_single_page_witness :
    ((fetchGitLabReposRun gitlabTwoPageNet gitlabCodec "t" "acme").requests =
        ["https://gitlab.com/api/v4/groups/acme/projects?per_page=100"] ∧
      (fetchGitLabReposRun gitlabTwoPageNet gitlabCodec "t" "acme").result =
        some (.ok [⟨"api", false, 10, "acme"⟩, ⟨"web", false, 30, "acme"⟩]) ∧
      fetchGitLabRepos gitlabTwoPageNet gitlabCodec "t" "acme" =
        .ok [⟨"api", false, 10, "acme"⟩, ⟨"web", false, 30, "acme"⟩]) ∧
    ((fetchGitLabMembersRun gitlabTwoPageNet gitlabCodec "t" "acme").requests =
        ["https://gitlab.com/api/v4/groups/acme/members"] ∧
      (fetchGitLabMembersRun gitlabTwoPageNet gitlabCodec "t" "acme").result =
        some (.ok [⟨"bob"⟩, ⟨"eve"⟩]) ∧
      fetchGitLabMembers gitlabTwoPageNet gitlabCodec "t" "acme" = .ok [⟨"bob"⟩, ⟨"eve"⟩]) :=
  ⟨(gitlab_single_page gitlabTwoPageNet gitlabCodec "t" "acme").1.2.2
      { StatusCode := 200
        Header := [("X-Next-Page", "2"), ("X-Total", "3"),
          ("Link", "<https://gitlab.com/api/v4/groups/acme/projects?page=2>; rel=\"next\"")]
        Body := .ok "g1" }
      "g1" [⟨"api", false, 10, "acme"⟩, ⟨"web", false, 30, "acme"⟩] rfl rfl rfl rfl,
   (gitlab_single_page gitlabTwoPageNet gitlabCodec "t" "acme").2.2.2.2
      { StatusCode := 200
        Header := [("X-Next-Page", "2"), ("X-Total", "3"),
          ("Link", "<https://gitlab.com/api/v4/groups/acme/members?page=2>; rel=\"next\"")]
        Body := .ok "m1" }
      "m1" [⟨"bob"⟩, ⟨"eve"⟩] rfl rfl rfl rfl⟩

/-! ## Parsing a well-formed Link header -/

theorem splitFrom_comma_piece (p : List Char) (hp : ',' ∉ p) :
    splitFrom [','] 0 p = [p] := by
  induction p with
  | nil => simp [splitFrom]
  | cons c cs ih =>
    have hc : ',' ≠ c := fun h => hp (by simp [← h])
    have hcs : ',' ∉ cs := fun h => hp (by simp [h])
    simp [splitFrom, List.isPrefixOf, hc, ih hcs]

theorem splitFrom_comma_cons (p rest : List Char) (hp : ',' ∉ p) :
    splitFrom [','] 0 (p ++ ',' :: rest) = p :: splitFrom [','] 0 rest := by
  induction p with
  | nil => simp [splitFrom, List.isPrefixOf]
  | cons c cs ih =>
    have hc : ',' ≠ c := fun h => hp (by simp [← h])
    have hcs : ',' ∉ cs := fun h => hp (by simp [h])
    simp [splitFrom, List.isPrefixOf, hc, ih hcs]

theorem spacePrefix_space (bs : List Nat) : spacePrefix (32 :: bs) = 1 := by
  simp [spacePrefix, spaceSeqs, List.find?, List.isPrefixOf]

theorem spacePrefix_lt (bs : List Nat) : spacePrefix (60 :: bs) = 0 := by
  simp [spacePrefix, spaceSeqs, List.find?, List.isPrefixOf]

theorem spaceSuffix_space (bs : List Nat) : spaceSuffix (32 :: bs) = 1 := by
  simp [spaceSuffix, spaceSeqs, List.find?, List.isPrefixOf]

theorem spaceSuffix_quote (bs : List Nat) : spaceSuffix (34 :: bs) = 0 := by
  simp [spaceSuffix, spaceSeqs, List.find?, List.isPrefixOf]

theorem trimLeft_spaces (t : List Char) :
    ∀ (a n : Nat), a ≤ n → trimLeft n (List.replicate a ' ' ++ '<' :: t) = '<' :: t := by
  intro a
  induction a with
  | zero =>
    intro n _
    cases n with
    | zero => simp [trimLeft]
    | succ n =>
      have h : ('<' : Char).toNat = 60 := by decide
      simp [trimLeft, h, spacePrefix_lt]
  | succ a ih =>
    intro n hn
    cases n with
    | zero => omega
    | succ n =>
      have h : (' ' : Char).toNat = 32 := by decide
      simp only [List.replicate_succ, List.cons_append, trimLeft, List.map_cons, h,
        spacePrefix_space, List.drop_succ_cons, List.drop_zero]
      exact ih n (by omega)

theorem trimRightRev_spaces (q : Char) (hq : q.toNat = 34) (t : List Char) :
    ∀ (b n : Nat), b ≤ n → trimRightRev n (List.replicate b ' ' ++ q :: t) = q :: t := by
  intro b
  induction b with
  | zero =>
    intro n _
    cases n with
    | zero => simp [trimRightRev]
    | succ n => simp [trimRightRev, hq, spaceSuffix_quote]
  | succ b ih =>
    intro n hn
    cases n with
    | zero => omega
    | succ n =>
      have h : (' ' : Char).toNat = 32 := by decide
      simp only [List.replicate_succ, List.cons_append, trimRightRev, List.map_cons, h,
        spaceSuffix_space, List.drop_succ_cons, List.drop_zero]
      exact ih n (by omega)

/-- Trimming an entry as written gives `<U>; rel="R"`. -/
theorem trim_text (e : LinkItem) : trim e.text = e.core := by
  have hq : (Char.ofNat 34).toNat = 34 := by decide
  have hcore : e.core =
      '<' :: (e.U.toList ++ (">; rel=\"".toList ++ e.R.toList) ++ [Char.ofNat 34]) := by
    simp [LinkItem.core]
  have h1 : trimLeft e.text.length e.text = e.core ++ List.replicate e.trail ' ' := by
    unfold LinkItem.text
    rw [hcore, List.cons_append]
    exact trimLeft_spaces _ e.lead _ (by simp)
  unfold trim
  simp only [h1]
  have h2 : (e.core ++ List.replicate e.trail ' ').reverse =
      List.replicate e.trail ' ' ++
        Char.ofNat 34 :: ((e.U.toList ++ (">; rel=\"".toList ++ e.R.toList)).reverse ++ ['<']) := by
    rw [hcore]
    simp
  rw [h2, trimRightRev_spaces _ hq _ e.trail _ (by simp)]
  rw [hcore]
  simp

theorem Index_single (c : Char) (t : List Char) :
    ∀ pre : List Char, c ∉ pre → Index (pre ++ c :: t) [c] = some pre.length := by
  intro pre
  induction pre with
  | nil => intro _; simp [Index, List.isPrefixOf]
  | cons a as ih =>
    intro h
    have ha : c ≠ a := fun hx => h (by simp [← hx])
    have has : c ∉ as := fun hx => h (by simp [hx])
    simp [Index, List.isPrefixOf, ha, ih has]

theorem rel_no_match (U t : List Char) (h : ¬ (['r', 'e', 'l', '='] <:+: U)) :
    List.isPrefixOf ['r', 'e', 'l', '='] (U ++ '>' :: t) = false := by
  rcases U with _ | ⟨a, _ | ⟨b, _ | ⟨c, _ | ⟨d, U1⟩⟩⟩⟩
  · simp [List.isPrefixOf]
  · simp [List.isPrefixOf]
  · simp [List.isPrefixOf]
  · simp [List.isPrefixOf]
  · by_contra hp
    apply h
    simp only [List.cons_append, List.isPrefixOf, Bool.and_eq_true, beq_iff_eq,
      Bool.not_eq_false] at hp
    obtain ⟨h1, h2, h3, h4, -⟩ := hp
    subst h1 h2 h3 h4
    exact ⟨[], U1, by simp⟩

theorem Index_rel (t : List Char) :
    ∀ U : List Char, ¬ (['r', 'e', 'l', '='] <:+: U) →
      Index (U ++ '>' :: ';' :: ' ' :: 'r' :: 'e' :: 'l' :: '=' :: t) ['r', 'e', 'l', '='] =
        some (U.length + 3) := by
  intro U
  induction U with
  | nil => intro _; simp [Index, List.isPrefixOf]
  | cons a as ih =>
    intro h
    have has : ¬ (['r', 'e', 'l', '='] <:+: as) :=
      fun hx => h (hx.trans (List.infix_cons (List.infix_refl _)))
    have hp := rel_no_match (a :: as) (';' :: ' ' :: 'r' :: 'e' :: 'l' :: '=' :: t) h
    simp only [List.cons_append] at hp
    rw [List.cons_append, Index, hp, ih has]
    simp

/-- The body of the loop of `splitLinks` on `<U>; rel="R"` finds `U` and `R`. -/
theorem linkEntry_core (e : LinkItem) (hw : e.wellFormed) :
    linkEntry e.core = some (e.U.toList, e.R.toList) := by
  obtain ⟨-, hU, hrel, -, -⟩ := hw
  have hgt : '>' ∉ e.U.toList := fun hx => hU _ hx (by decide)
  have hlt : '>' ∉ '<' :: e.U.toList := by
    intro hx
    rcases List.mem_cons.1 hx with h | h
    · exact absurd h (by decide)
    · exact hgt h
  have hrel1 : ¬ (['r', 'e', 'l', '='] <:+: e.U.toList) := hrel
  have hcore : e.core = ('<' :: e.U.toList) ++ '>' ::
      (';' :: ' ' :: 'r' :: 'e' :: 'l' :: '=' :: Char.ofNat 34 ::
        (e.R.toList ++ [Char.ofNat 34])) := by
    simp [LinkItem.core]
  generalize e.U.toList = u at hlt hrel1 hcore ⊢
  generalize e.R.toList = r at hcore ⊢
  have h1 : Index e.core "<".toList = some 0 := by
    rw [hcore]
    simp [Index, List.isPrefixOf]
  have h2 : Index e.core ">".toList = some (u.length + 1) := by
    rw [hcore]
    exact Index_single '>' _ ('<' :: u) hlt
  have h3 : Index e.core "rel=".toList = some (u.length + 4) := by
    rw [hcore]
    have := Index_rel (Char.ofNat 34 :: (r ++ [Char.ofNat 34])) u hrel1
    have hp : List.isPrefixOf ['r', 'e', 'l', '=']
        ('<' :: (u ++ '>' :: ';' :: ' ' :: 'r' :: 'e' :: 'l' :: '=' ::
          Char.ofNat 34 :: (r ++ [Char.ofNat 34]))) = false := by
      simp [List.isPrefixOf]
    show Index ('<' :: (u ++ '>' :: ';' :: ' ' :: 'r' :: 'e' :: 'l' :: '=' ::
      Char.ofNat 34 :: (r ++ [Char.ofNat 34]))) ['r', 'e', 'l', '='] = some (u.length + 4)
    rw [Index, hp, this]
    simp
  have h4 : (e.core.take (u.length + 1)).drop (0 + 1) = u := by
    rw [hcore, List.take_left' (by simp)]
    simp
  have h5 : slice e.core (u.length + 4 + 5) (e.core.length - 1) = some r := by
    have hsplit : e.core = ('<' :: (u ++ ['>', ';', ' ', 'r', 'e', 'l', '=', Char.ofNat 34])) ++
        (r ++ [Char.ofNat 34]) := by
      rw [hcore]
      simp
    have hlen : e.core.length - 1 = (u.length + 9) + r.length := by
      rw [hsplit]
      simp
      omega
    have hle : e.core.length = (u.length + 9) + r.length + 1 := by
      rw [hsplit]
      simp
      omega
    unfold slice
    rw [hlen, if_pos ⟨by omega, by omega⟩]
    congr 1
    rw [hsplit, ← List.append_assoc,
      List.take_left' (by simp only [List.length_append, List.length_cons, List.length_nil]),
      List.drop_left' (by simp only [List.length_append, List.length_cons, List.length_nil])]
  unfold linkEntry
  simp only [h1, h2, h3, h5]
  simp [h4]

theorem no_comma_text (e : LinkItem) (hw : e.wellFormed) : ',' ∉ e.text := by
  obtain ⟨-, hU, -, -, hR⟩ := hw
  have h1 : ',' ∉ e.U.toList := fun hx => hU _ hx (by decide)
  have h2 : ',' ∉ e.R.toList := fun hx => hR _ hx (by decide)
  intro hx
  simp only [LinkItem.text, LinkItem.core, List.mem_append, List.mem_replicate] at hx
  rcases hx with ⟨-, h⟩ | (h | h | h | h | h) | ⟨-, h⟩
  · exact absurd h (by decide)
  · exact absurd h (by decide)
  · exact h1 h
  · exact absurd h (by decide)
  · exact h2 h
  · exact absurd h (by decide)
  · exact absurd h (by decide)

/-- Splitting the header at the commas gives back the entries as written. -/
theorem split_headerChars :
    ∀ (e : LinkItem) (es : List LinkItem), (∀ x ∈ e :: es, x.wellFormed) →
      split (headerChars (e :: es)) ",".toList = (e :: es).map LinkItem.text := by
  intro e es
  induction es generalizing e with
  | nil =>
    intro h
    have hc := no_comma_text e (h e (by simp))
    show (if [','] = [] then _ else splitFrom [','] 0 (headerChars [e])) = _
    simp [headerChars, splitFrom_comma_piece _ hc]
  | cons e1 es ih =>
    intro h
    have hc := no_comma_text e (h e (by simp))
    have ih1 := ih e1 (fun x hx => h x (by simp [hx]))
    have ih2 : splitFrom [','] 0 (headerChars (e1 :: es)) = (e1 :: es).map LinkItem.text := by
      have : split (headerChars (e1 :: es)) ",".toList =
          splitFrom [','] 0 (headerChars (e1 :: es)) := by
        show (if [','] = [] then _ else _) = _
        simp
      rw [← this]
      exact ih1
    show (if [','] = [] then _ else splitFrom [','] 0 (headerChars (e :: e1 :: es))) = _
    have hh : headerChars (e :: e1 :: es) = e.text ++ ',' :: headerChars (e1 :: es) := by
      simp [headerChars]
    rw [hh, splitFrom_comma_cons _ _ hc, ih2]
    simp

/-- The loop of `splitLinks` over well-formed entries appends one part per
entry. -/
theorem splitLinksLoop_cores :
    ∀ (es : List LinkItem) (parts : List linkPart), (∀ x ∈ es, x.wellFormed) →
      splitLinksLoop (es.map LinkItem.core) parts =
        some (parts ++ es.map (fun e => { URL := e.U, Rel := e.R })) := by
  intro es
  induction es with
  | nil => intro parts _; simp [splitLinksLoop]
  | cons e es ih =>
    intro parts h
    have hw := h e (by simp)
    have hu : e.U.toList ≠ [] := by
      intro hx
      exact hw.1 (String.ext hx)
    have hr : e.R.toList ≠ [] := by
      intro hx
      exact hw.2.2.2.1 (String.ext hx)
    simp only [List.map_cons, splitLinksLoop, linkEntry_core e hw]
    rw [if_pos ⟨hu, hr⟩, ih _ (fun x hx => h x (by simp [hx]))]
    simp

/-- On a header of well-formed entries `splitLinks` returns one part per
entry, in header order. -/
theorem splitLinks_headerOf (es : List LinkItem) (h : ∀ x ∈ es, x.wellFormed) :
    splitLinks (headerOf es) = some (es.map (fun e => { URL := e.U, Rel := e.R })) := by
  cases es with
  | nil => decide
  | cons e es =>
    unfold splitLinks splitAndTrim headerOf
    show splitLinksLoop ((split (headerChars (e :: es)) ",".toList).map trim) [] = _
    rw [split_headerChars e es h, List.map_map]
    have : (trim ∘ LinkItem.text) = LinkItem.core := funext trim_text
    rw [this, splitLinksLoop_cores (e :: es) [] h]
    simp

/-- The loop of `apiGet` over the parts keeps the URL of the last part whose
`Rel` is `next`. -/
theorem foldl_next (es : List LinkItem) :
    ∀ init : String,
      (es.map (fun e => ({ URL := e.U, Rel := e.R } : linkPart))).foldl
          (fun next part => if part.Rel = "next" then part.URL else next) init =
        (((es.filter (fun e => e.R = "next")).getLast?).map LinkItem.U).getD init := by
  induction es with
  | nil => intro init; simp
  | cons e es ih =>
    intro init
    simp only [List.map_cons, List.foldl_cons, ih]
    by_cases h : e.R = "next"
    · simp only [h, if_true, List.filter_cons, decide_True, List.getLast?_cons]
      cases (es.filter (fun e => e.R = "next")).getLast? <;> simp
    · simp [h, List.filter_cons]

theorem headerOf_ne_empty (e : LinkItem) (es : List LinkItem) : headerOf (e :: es) ≠ "" := by
  intro h
  have h1 : headerChars (e :: es) = [] := congrArg String.data h
  have h2 : e.core ≠ [] := by simp [LinkItem.core]
  cases es with
  | nil =>
    simp only [headerChars, LinkItem.text, List.append_eq_nil] at h1
    exact h2 h1.2.1
  | cons e1 es =>
    simp only [headerChars, LinkItem.text, List.append_eq_nil] at h1
    exact h2 h1.1.2.1

/-- C14. For a Link header made of well-formed entries `<U>; rel="R"`
separated by commas (with or without spaces around the entries), `splitLinks`
returns one part {URL: U, Rel: R} per entry in header order, and the next
locator `apiGet` computes from a response carrying that header is the `U` of
the last entry whose `R` is `next`, or the empty string when there is none. -/
theorem link_header_next (es : List LinkItem) (hwf : ∀ e ∈ es, e.wellFormed) :
    splitLinks (headerOf es) = some (es.map (fun e => { URL := e.U, Rel := e.R })) ∧
    ∀ (net : Net) (token url body : String) (resp : Response),
      net.urlError url = none → net.Do (apiRequest token url) = .ok resp →
      resp.Body = .ok body → headerGet resp.Header "Link" = headerOf es →
      apiGet net token url = .ok
        { Body := body
          Next := (((es.filter (fun e => e.R = "next")).getLast?).map LinkItem.U).getD "" } := by
  have hs := splitLinks_headerOf es hwf
  refine ⟨hs, ?_⟩
  intro net token url body resp hu hd hb hl
  unfold apiGet
  simp only [hu, hd, hb, hl]
  cases es with
  | nil =>
    have : headerOf [] = "" := rfl
    simp [this]
  | cons e es =>
    rw [if_pos (headerOf_ne_empty e es), hs]
    simp only [nextOf, foldl_next]

/-- C14, witness: on the header GitHub sends with `prev`, `next`, `last` and
`first`, `splitLinks` returns the four parts in order and `apiGet` takes the
locator of page 3 as next. -/
theorem link_header_next_witness :
    splitLinks (headerOf githubLinks) = some
      [⟨"https://api.github.com/r?page=1", "prev"⟩,
       ⟨"https://api.github.com/r?page=3", "next"⟩,
       ⟨"https://api.github.com/r?page=9", "last"⟩,
       ⟨"https://api.github.com/r?page=1", "first"⟩] ∧
    apiGet githubLinksNet "t" "https://api.github.com/orgs/acme/repos?per_page=100" = .ok
      { Body := "p1"
        Next := "https://api.github.com/r?page=3" } :=
  have hwf : ∀ e ∈ githubLinks, e.wellFormed := by
    intro e he
    simp only [githubLinks, List.mem_cons, List.mem_singleton, List.not_mem_nil, or_false] at he
    rcases he with rfl | rfl | rfl | rfl <;>
      exact ⟨by decide, by decide, by decide, by decide, by decide⟩
  have h := link_header_next githubLinks hwf
  ⟨h.1, h.2 githubLinksNet "t" "https://api.github.com/orgs/acme/repos?per_page=100" "p1"
    { StatusCode := 200
      Header := [("Link",
        "<https://api.github.com/r?page=1>; rel=\"prev\"," ++
        " <https://api.github.com/r?page=3>; rel=\"next\"," ++
        " <https://api.github.com/r?page=9>; rel=\"last\"," ++
        " <https://api.github.com/r?page=1>; rel=\"first\"")]
      Body := .ok "p1" }
    rfl rfl rfl rfl⟩

end OrgFetch
